import Mathlib

/-!
Verification development for the `generate-from-sample` detection pipeline
(`scripts/generate-from-sample.js`): tokenizer, built-in detector registry
with validators, evidentiary scoring, the structural-signature generalizer
and the draft-record negative-test synthesis.  All definitions are shallow
embeddings of the JavaScript source; theorems settle the frozen claims
about that source.
-/

namespace GenFromSample

/-! ## Character classes (JS regex ASCII semantics) -/

/-- JS `[A-Za-z]`. -/
def isLetterCh (c : Char) : Bool :=
  (65 ≤ c.toNat && c.toNat ≤ 90) || (97 ≤ c.toNat && c.toNat ≤ 122)

/-- JS `\d`. -/
def isDigitCh (c : Char) : Bool :=
  48 ≤ c.toNat && c.toNat ≤ 57

/-- JS `\w` (ASCII word characters: letters, digits, underscore). -/
def isWordCh (c : Char) : Bool :=
  isLetterCh c || isDigitCh c || c = '_'

/-- JS `\s`: the whitespace and line-terminator code points. -/
def isSpaceJS (c : Char) : Bool :=
  c = ' ' || c = '\t' || c = '\n' || c = '\r' ||
  c.toNat = 0xb || c.toNat = 0xc || c.toNat = 0xa0 || c.toNat = 0x1680 ||
  (0x2000 ≤ c.toNat && c.toNat ≤ 0x200a) ||
  c.toNat = 0x2028 || c.toNat = 0x2029 || c.toNat = 0x202f ||
  c.toNat = 0x205f || c.toNat = 0x3000 || c.toNat = 0xfeff

theorem not_space_of_word {c : Char} (h : isWordCh c = true) : isSpaceJS c = false := by
  simp only [isWordCh, isLetterCh, isDigitCh, Bool.or_eq_true, Bool.and_eq_true,
    decide_eq_true_eq] at h
  have hn : (65 ≤ c.toNat ∧ c.toNat ≤ 90) ∨ (97 ≤ c.toNat ∧ c.toNat ≤ 122) ∨
      (48 ≤ c.toNat ∧ c.toNat ≤ 57) ∨ c.toNat = 95 := by
    rcases h with (h | h) | h
    · rcases h with h | h
      · exact Or.inl h
      · exact Or.inr (Or.inl h)
    · exact Or.inr (Or.inr (Or.inl h))
    · subst h; exact Or.inr (Or.inr (Or.inr rfl))
  simp only [isSpaceJS, Bool.or_eq_false_iff, decide_eq_false_iff_not, Bool.and_eq_false_iff,
    decide_eq_false_iff_not]
  refine ⟨⟨⟨⟨⟨⟨⟨⟨⟨⟨⟨⟨⟨⟨?_, ?_⟩, ?_⟩, ?_⟩, ?_⟩, ?_⟩, ?_⟩, ?_⟩, ?_⟩, ?_⟩, ?_⟩, ?_⟩, ?_⟩, ?_⟩, ?_⟩ <;>
    first
      | (intro hc; subst hc; revert hn; decide)
      | omega

theorem not_letter_of_digit {c : Char} (h : isDigitCh c = true) : isLetterCh c = false := by
  simp only [isDigitCh, Bool.and_eq_true, decide_eq_true_eq] at h
  simp only [isLetterCh, Bool.or_eq_false_iff, Bool.and_eq_false_iff, decide_eq_false_iff_not]
  omega

theorem word_of_letter {c : Char} (h : isLetterCh c = true) : isWordCh c = true := by
  simp [isWordCh, h]

theorem word_of_digit {c : Char} (h : isDigitCh c = true) : isWordCh c = true := by
  simp [isWordCh, h]

/-- The numeric value of a decimal digit character. -/
def digitVal (c : Char) : Nat := c.toNat - 48

/-- The decimal digit character for `n % 10`-style values (clamped like the
decimal printer only ever uses it: on `n < 10`). -/
def digitChar (n : Nat) : Char :=
  if n = 0 then '0' else if n = 1 then '1' else if n = 2 then '2' else if n = 3 then '3'
  else if n = 4 then '4' else if n = 5 then '5' else if n = 6 then '6' else if n = 7 then '7'
  else if n = 8 then '8' else '9'

theorem digitChar_of_ge {n : Nat} (h : 9 ≤ n) : digitChar n = '9' := by
  have h0 : n ≠ 0 := by omega
  have h1 : n ≠ 1 := by omega
  have h2 : n ≠ 2 := by omega
  have h3 : n ≠ 3 := by omega
  have h4 : n ≠ 4 := by omega
  have h5 : n ≠ 5 := by omega
  have h6 : n ≠ 6 := by omega
  have h7 : n ≠ 7 := by omega
  have h8 : n ≠ 8 := by omega
  unfold digitChar
  simp only [h0, h1, h2, h3, h4, h5, h6, h7, h8, if_false]

theorem digitChar_isDigit (n : Nat) : isDigitCh (digitChar n) = true := by
  by_cases h : n ≤ 8
  · interval_cases n <;> rfl
  · rw [digitChar_of_ge (by omega)]; rfl

theorem digitVal_digitChar {n : Nat} (h : n < 10) : digitVal (digitChar n) = n := by
  interval_cases n <;> rfl

theorem digitChar_ne_left_bracket (n : Nat) : digitChar n ≠ '[' := by
  by_cases h : n ≤ 8
  · interval_cases n <;> decide
  · rw [digitChar_of_ge (by omega)]; decide

theorem digitChar_ne_backslash (n : Nat) : digitChar n ≠ '\\' := by
  by_cases h : n ≤ 8
  · interval_cases n <;> decide
  · rw [digitChar_of_ge (by omega)]; decide

/-- Decimal digits of a natural number, most significant first
(structural on a fuel argument so that it evaluates in the kernel). -/
def natDigitsAux : Nat → Nat → List Char
  | 0, _ => []
  | fuel + 1, n =>
    if n < 10 then [digitChar n]
    else natDigitsAux fuel (n / 10) ++ [digitChar (n % 10)]

/-- The decimal representation of `n`, as the JS template `${n}` prints it. -/
def natDigits (n : Nat) : List Char := natDigitsAux (n + 1) n

/-- Left-to-right decimal accumulation, as `parseInt` consumes digit characters. -/
def digitsAcc : Nat → List Char → Nat
  | n, [] => n
  | n, c :: cs => digitsAcc (10 * n + digitVal c) cs

/-- Numeric value of a digit string. -/
def digitsToNat (cs : List Char) : Nat := digitsAcc 0 cs

theorem digitsAcc_append (a b : List Char) (n : Nat) :
    digitsAcc n (a ++ b) = digitsAcc (digitsAcc n a) b := by
  induction a generalizing n with
  | nil => rfl
  | cons c cs ih =>
    rw [List.cons_append]
    show digitsAcc (10 * n + digitVal c) (cs ++ b) = digitsAcc (digitsAcc (10 * n + digitVal c) cs) b
    exact ih _

theorem natDigitsAux_succ (fuel n : Nat) :
    natDigitsAux (fuel + 1) n =
      if n < 10 then [digitChar n] else natDigitsAux fuel (n / 10) ++ [digitChar (n % 10)] := rfl

theorem natDigitsAux_of_enough (fuel₁ fuel₂ n : Nat) (h₁ : n < fuel₁) (h₂ : n < fuel₂) :
    natDigitsAux fuel₁ n = natDigitsAux fuel₂ n := by
  induction fuel₁ generalizing fuel₂ n with
  | zero => omega
  | succ f ih =>
    cases fuel₂ with
    | zero => omega
    | succ g =>
      rw [natDigitsAux_succ, natDigitsAux_succ]
      by_cases hn : n < 10
      · rw [if_pos hn, if_pos hn]
      · rw [if_neg hn, if_neg hn, ih g (n / 10) (by omega) (by omega)]

theorem natDigits_step {n : Nat} (h : ¬ n < 10) :
    natDigits n = natDigits (n / 10) ++ [digitChar (n % 10)] := by
  unfold natDigits
  cases n with
  | zero => omega
  | succ m =>
    rw [natDigitsAux_succ, if_neg h,
      natDigitsAux_of_enough (m + 1) ((m + 1) / 10 + 1) ((m + 1) / 10) (by omega) (by omega)]

theorem natDigits_small {n : Nat} (h : n < 10) : natDigits n = [digitChar n] := by
  unfold natDigits
  cases n with
  | zero => rfl
  | succ m => simp [natDigitsAux, h]

theorem natDigits_ne_nil (n : Nat) : natDigits n ≠ [] := by
  by_cases h : n < 10
  · rw [natDigits_small h]; simp
  · rw [natDigits_step h]; simp

theorem natDigits_all_digit (n : Nat) : ∀ c ∈ natDigits n, isDigitCh c = true := by
  induction n using Nat.strong_induction_on with
  | _ n ih =>
    by_cases h : n < 10
    · rw [natDigits_small h]
      intro c hc
      simp only [List.mem_singleton] at hc
      subst hc; exact digitChar_isDigit n
    · rw [natDigits_step h]
      intro c hc
      rcases List.mem_append.mp hc with hc | hc
      · exact ih (n / 10) (by omega) c hc
      · simp only [List.mem_singleton] at hc
        subst hc; exact digitChar_isDigit (n % 10)

theorem digitsAcc_natDigits (m n : Nat) :
    digitsAcc m (natDigits n) = m * 10 ^ (natDigits n).length + n := by
  induction n using Nat.strong_induction_on generalizing m with
  | _ n ih =>
    by_cases h : n < 10
    · rw [natDigits_small h]
      show digitsAcc (10 * m + digitVal (digitChar n)) [] = m * 10 ^ [digitChar n].length + n
      rw [digitVal_digitChar h]
      show 10 * m + n = m * 10 ^ 1 + n
      rw [pow_one]
      omega
    · rw [natDigits_step h, digitsAcc_append, ih (n / 10) (by omega) m]
      show digitsAcc (10 * (m * 10 ^ (natDigits (n / 10)).length + n / 10) +
          digitVal (digitChar (n % 10))) [] =
        m * 10 ^ (natDigits (n / 10) ++ [digitChar (n % 10)]).length + n
      rw [digitVal_digitChar (Nat.mod_lt n (by omega)), List.length_append,
        List.length_singleton, pow_succ]
      show 10 * (m * 10 ^ (natDigits (n / 10)).length + n / 10) + n % 10 =
        m * (10 ^ (natDigits (n / 10)).length * 10) + n
      have hmul : m * (10 ^ (natDigits (n / 10)).length * 10) =
          10 * (m * 10 ^ (natDigits (n / 10)).length) := by ring
      rw [hmul]
      have hdm : 10 * (n / 10) + n % 10 = n := Nat.div_add_mod n 10
      set t := m * 10 ^ (natDigits (n / 10)).length with ht
      omega

theorem digitsToNat_natDigits (n : Nat) : digitsToNat (natDigits n) = n := by
  unfold digitsToNat
  rw [digitsAcc_natDigits]
  simp

/-! ## Structural signature (`computeSignature`, source lines 505-526)

The JS loop scans the value left to right, collapsing each maximal letter
run into `<runLength>A` and each maximal digit run into `<runLength>d`,
and copying every other character verbatim.  The loop is embedded as a
state machine: the state holds the class (`true` = letters) and length of
the run currently being collapsed. -/

def sigAux : List Char → Option (Bool × Nat) → List Char
  | [], none => []
  | [], some (b, n) => natDigits n ++ [if b then 'A' else 'd']
  | c :: cs, none =>
    if isLetterCh c then sigAux cs (some (true, 1))
    else if isDigitCh c then sigAux cs (some (false, 1))
    else c :: sigAux cs none
  | c :: cs, some (b, n) =>
    if isLetterCh c then
      (if b then sigAux cs (some (true, n + 1))
       else natDigits n ++ 'd' :: sigAux cs (some (true, 1)))
    else if isDigitCh c then
      (if b then natDigits n ++ 'A' :: sigAux cs (some (false, 1))
       else sigAux cs (some (false, n + 1)))
    else natDigits n ++ (if b then 'A' else 'd') :: c :: sigAux cs none

/-- The raw (unclamped) structural signature of a character list. -/
def sigCore (cs : List Char) : List Char := sigAux cs none

/-- `computeSignature` from the source: the raw signature, discarded when
its encoded length is below 2 or above 40. -/
def computeSignature (v : String) : Option String :=
  let s := sigCore v.toList
  if s.length < 2 || 40 < s.length then none else some (String.mk s)

/-! ## Regex synthesis (`signatureToRegex`, source lines 528-559) -/

/-- Separator escaping: the JS code escapes the regex metacharacters
`. - + * ? ^ $ { } ( ) | [ ] \`, renders a space as `\s`, and copies any
other separator verbatim. -/
def escapeCh (c : Char) : List Char :=
  if c = '.' || c = '-' || c = '+' || c = '*' || c = '?' || c = '^' || c = '$' ||
     c = '\x7b' || c = '\x7d' || c = '(' || c = ')' || c = '|' || c = '[' ||
     c = ']' || c = '\\' then ['\\', c]
  else if c = ' ' then ['\\', 's'] else [c]

/-- The characters `[A-Za-z]{` opening a letter-class atom. -/
def classOpenA : List Char := ['[', 'A', '-', 'Z', 'a', '-', 'z', ']', '\x7b']

/-- The JS loop over the signature: a digit run is accumulated as a count
(`parseInt` semantics); a following `A` or `d` emits the counted character
class, any other type character silently drops the count; a bare
separator character is escaped.  A trailing count with no type character
is dropped. -/
def sigBodyAux : List Char → Option Nat → List Char
  | [], _ => []
  | c :: cs, none =>
    if isDigitCh c then sigBodyAux cs (some (digitVal c))
    else escapeCh c ++ sigBodyAux cs none
  | c :: cs, some n =>
    if isDigitCh c then sigBodyAux cs (some (10 * n + digitVal c))
    else if c = 'A' then classOpenA ++ natDigits n ++ '\x7d' :: sigBodyAux cs none
    else if c = 'd' then '\\' :: 'd' :: '\x7b' :: (natDigits n ++ '\x7d' :: sigBodyAux cs none)
    else sigBodyAux cs none

/-- Regex body synthesized from a signature. -/
def sigBody (sig : List Char) : List Char := sigBodyAux sig none

/-- `signatureToRegex`: the synthesized body wrapped in `\b` anchors. -/
def signatureToRegex (sig : String) : String :=
  String.mk ('\\' :: 'b' :: (sigBody sig.toList ++ ['\\', 'b']))

/-! ## Matching semantics of the synthesized regexes

The regex dialect emitted by `signatureToRegex` consists of `\b`,
`[A-Za-z]{n}`, `\d{n}`, `\s`, escaped literals `\c` and verbatim literal
characters — every atom has a fixed width, so matching at a position is
deterministic.  `jsTest` is JS `RegExp.prototype.test`: the pattern is
tried at every start position. -/

def charIsWordAt (s : List Char) (i : Nat) : Bool :=
  match s.get? i with
  | some c => isWordCh c
  | none => false

/-- JS `\b`: a word boundary holds at `i` iff exactly one of the adjacent
positions holds a word character (positions outside the string count as
non-word). -/
def wordBoundaryAt (s : List Char) (i : Nat) : Bool :=
  (if i = 0 then false else charIsWordAt s (i - 1)) != charIsWordAt s i

/-- `n` consecutive characters satisfying `p` are present at position `i`. -/
def runCheck (p : Char → Bool) (s : List Char) (i n : Nat) : Bool :=
  (((s.drop i).take n).length == n) && ((s.drop i).take n).all p

/-- Matcher mode: normal scanning, or accumulating the count of a
`[A-Za-z]{` / `\d{` class (`true` = letter class). -/
inductive RMode where
  | norm : RMode
  | count : Bool → Nat → Bool → RMode

/-- The characters `A-Za-z]{` following the `[` of a letter-class atom. -/
def classTail : List Char := ['A', '-', 'Z', 'a', '-', 'z', ']', '\x7b']

/-- Deterministic matcher for the synthesized dialect: consumes the regex
character list against input `s` starting at position `i`, returning the
end position on success.  Structural on a fuel argument; every recursive
call shrinks the regex, so `regex length + 1` fuel is always enough. -/
def reMatchF : Nat → List Char → RMode → List Char → Nat → Option Nat
  | 0, _, _, _, _ => none
  | fuel + 1, re, RMode.count p acc seen, s, i =>
    (match re with
     | [] => none
     | c :: r =>
       if isDigitCh c then reMatchF fuel r (RMode.count p (10 * acc + digitVal c) true) s i
       else if c = '\x7d' then
         (if seen && runCheck (if p then isLetterCh else isDigitCh) s i acc
          then reMatchF fuel r RMode.norm s (i + acc) else none)
       else none)
  | fuel + 1, re, RMode.norm, s, i =>
    (match re with
     | [] => some i
     | [c] =>
       if c = '\\' then none
       else if c = '[' then none
       else (if (s.get? i).any (fun ch => ch == c)
             then reMatchF fuel [] RMode.norm s (i + 1) else none)
     | c :: t :: r2 =>
       if c = '\\' then
         (if t = 'b' then
           (if wordBoundaryAt s i then reMatchF fuel r2 RMode.norm s i else none)
          else if t = 'd' then
           (if r2.take 1 = ['\x7b']
            then reMatchF fuel (r2.drop 1) (RMode.count false 0 false) s i else none)
          else if t = 's' then
           (if (s.get? i).any isSpaceJS then reMatchF fuel r2 RMode.norm s (i + 1) else none)
          else
           (if (s.get? i).any (fun ch => ch == t)
            then reMatchF fuel r2 RMode.norm s (i + 1) else none))
       else if c = '[' then
         (if (t :: r2).take 8 = classTail
          then reMatchF fuel ((t :: r2).drop 8) (RMode.count true 0 false) s i else none)
       else
         (if (s.get? i).any (fun ch => ch == c)
          then reMatchF fuel (t :: r2) RMode.norm s (i + 1) else none))

/-- The matcher with its canonical fuel. -/
def reMatchAux (re : List Char) (m : RMode) (s : List Char) (i : Nat) : Option Nat :=
  reMatchF (re.length + 1) re m s i

/-- JS `test`: search for a match at every start position. -/
def jsTest (re v : String) : Bool :=
  (List.range (v.toList.length + 1)).any fun i =>
    (reMatchAux re.toList RMode.norm v.toList i).isSome

/-! ## List helpers -/

theorem take_add' {α : Type} (l : List α) (m n : Nat) :
    l.take (m + n) = l.take m ++ (l.drop m).take n := by
  induction m generalizing l with
  | zero => simp
  | succ k ih =>
    cases l with
    | nil => simp
    | cons a as =>
      have : k + 1 + n = (k + n) + 1 := by omega
      rw [this, List.take_succ_cons, List.take_succ_cons, List.drop_succ_cons, ih,
        List.cons_append]

theorem drop_of_get?_some {α : Type} {s : List α} {i : Nat} {c : α}
    (h : s.get? i = some c) : s.drop i = c :: s.drop (i + 1) := by
  rcases List.get?_eq_some.mp h with ⟨hlt, hget⟩
  rw [List.drop_eq_getElem_cons hlt]
  rw [show s[i] = c from by rw [← hget]; simp]

theorem dropWhile_head_false {α : Type} (p : α → Bool) (l : List α) {c : α}
    (h : (l.dropWhile p).head? = some c) : p c = false := by
  have hd := List.head?_dropWhile_not p l
  rw [h] at hd
  exact hd

/-! ## Signature chunk lemmas: `computeSignature` collapses maximal letter
runs to `<n>A`, maximal digit runs to `<n>d`, and copies separators. -/

theorem sigAux_nil_none : sigAux [] none = [] := rfl

theorem sigAux_nil_some (b : Bool) (n : Nat) :
    sigAux [] (some (b, n)) = natDigits n ++ [if b then 'A' else 'd'] := rfl

theorem sigAux_cons_none (c : Char) (cs : List Char) :
    sigAux (c :: cs) none =
      if isLetterCh c then sigAux cs (some (true, 1))
      else if isDigitCh c then sigAux cs (some (false, 1))
      else c :: sigAux cs none := rfl

theorem sigAux_cons_some (c : Char) (cs : List Char) (b : Bool) (n : Nat) :
    sigAux (c :: cs) (some (b, n)) =
      if isLetterCh c then
        (if b then sigAux cs (some (true, n + 1))
         else natDigits n ++ 'd' :: sigAux cs (some (true, 1)))
      else if isDigitCh c then
        (if b then natDigits n ++ 'A' :: sigAux cs (some (false, 1))
         else sigAux cs (some (false, n + 1)))
      else natDigits n ++ (if b then 'A' else 'd') :: c :: sigAux cs none := rfl

theorem sigAux_flush (rest : List Char) (b : Bool) (n : Nat)
    (h : ∀ c, rest.head? = some c → (if b then isLetterCh c else isDigitCh c) = false) :
    sigAux rest (some (b, n)) = natDigits n ++ (if b then 'A' else 'd') :: sigAux rest none := by
  cases rest with
  | nil => rw [sigAux_nil_some, sigAux_nil_none]
  | cons c cs =>
    have hc := h c rfl
    rw [sigAux_cons_some, sigAux_cons_none]
    cases b with
    | true =>
      simp at hc
      by_cases hd : isDigitCh c = true <;> simp [hc, hd]
    | false =>
      simp at hc
      by_cases hl : isLetterCh c = true <;> simp [hc, hl]

theorem sigAux_run (run : List Char) : ∀ (rest : List Char) (b : Bool) (n : Nat),
    (∀ c ∈ run, (if b then isLetterCh c else isDigitCh c) = true) →
    (∀ c, rest.head? = some c → (if b then isLetterCh c else isDigitCh c) = false) →
    sigAux (run ++ rest) (some (b, n)) =
      natDigits (n + run.length) ++ (if b then 'A' else 'd') :: sigAux rest none := by
  induction run with
  | nil =>
    intro rest b n _ hrest
    simpa using sigAux_flush rest b n hrest
  | cons c run' ih =>
    intro rest b n hrun hrest
    have hc := hrun c (by simp)
    have step : sigAux ((c :: run') ++ rest) (some (b, n)) =
        sigAux (run' ++ rest) (some (b, n + 1)) := by
      rw [List.cons_append, sigAux_cons_some]
      cases b with
      | true =>
        simp at hc
        simp [hc]
      | false =>
        simp at hc
        simp [hc, not_letter_of_digit hc]
    rw [step, ih rest b (n + 1) (fun x hx => hrun x (by simp [hx])) hrest]
    have : n + 1 + run'.length = n + (c :: run').length := by simp; omega
    rw [this]

theorem sigCore_letter_chunk (run rest : List Char) (hne : run ≠ [])
    (hrun : ∀ c ∈ run, isLetterCh c = true)
    (hrest : ∀ c, rest.head? = some c → isLetterCh c = false) :
    sigCore (run ++ rest) = natDigits run.length ++ 'A' :: sigCore rest := by
  cases run with
  | nil => exact absurd rfl hne
  | cons c run' =>
    have hc : isLetterCh c = true := hrun c (by simp)
    have step : sigCore ((c :: run') ++ rest) = sigAux (run' ++ rest) (some (true, 1)) := by
      rw [sigCore, List.cons_append, sigAux_cons_none]
      simp [hc]
    rw [step, sigAux_run run' rest true 1 (fun x hx => by simpa using hrun x (by simp [hx]))
      (fun x hx => by simpa using hrest x hx)]
    have : (1 : Nat) + run'.length = (c :: run').length := by simp; omega
    rw [this]
    rfl

theorem sigCore_digit_chunk (run rest : List Char) (hne : run ≠ [])
    (hrun : ∀ c ∈ run, isDigitCh c = true)
    (hrest : ∀ c, rest.head? = some c → isDigitCh c = false) :
    sigCore (run ++ rest) = natDigits run.length ++ 'd' :: sigCore rest := by
  cases run with
  | nil => exact absurd rfl hne
  | cons c run' =>
    have hc : isDigitCh c = true := hrun c (by simp)
    have step : sigCore ((c :: run') ++ rest) = sigAux (run' ++ rest) (some (false, 1)) := by
      rw [sigCore, List.cons_append, sigAux_cons_none]
      simp [hc, not_letter_of_digit hc]
    rw [step, sigAux_run run' rest false 1 (fun x hx => by simpa using hrun x (by simp [hx]))
      (fun x hx => by simpa using hrest x hx)]
    have : (1 : Nat) + run'.length = (c :: run').length := by simp; omega
    rw [this]
    rfl

theorem sigCore_lit_chunk (c : Char) (rest : List Char)
    (h1 : isLetterCh c = false) (h2 : isDigitCh c = false) :
    sigCore (c :: rest) = c :: sigCore rest := by
  rw [sigCore, sigAux_cons_none]
  simp [h1, h2]
  rfl

theorem sigCore_nil : sigCore [] = [] := rfl

/-! ## Regex-synthesis chunk lemmas -/

theorem sigBodyAux_nil (st : Option Nat) : sigBodyAux [] st = [] := by
  cases st <;> rfl

theorem sigBodyAux_cons_none (c : Char) (cs : List Char) :
    sigBodyAux (c :: cs) none =
      if isDigitCh c then sigBodyAux cs (some (digitVal c))
      else escapeCh c ++ sigBodyAux cs none := rfl

theorem sigBodyAux_cons_some (c : Char) (cs : List Char) (n : Nat) :
    sigBodyAux (c :: cs) (some n) =
      if isDigitCh c then sigBodyAux cs (some (10 * n + digitVal c))
      else if c = 'A' then classOpenA ++ natDigits n ++ '\x7d' :: sigBodyAux cs none
      else if c = 'd' then '\\' :: 'd' :: '\x7b' :: (natDigits n ++ '\x7d' :: sigBodyAux cs none)
      else sigBodyAux cs none := rfl

theorem sigBodyAux_digits_A (ds : List Char) : ∀ (z : List Char) (n : Nat),
    (∀ c ∈ ds, isDigitCh c = true) →
    sigBodyAux (ds ++ 'A' :: z) (some n) =
      classOpenA ++ natDigits (digitsAcc n ds) ++ '\x7d' :: sigBodyAux z none := by
  induction ds with
  | nil =>
    intro z n _
    rw [List.nil_append, sigBodyAux_cons_some]
    rw [if_neg (by decide), if_pos rfl]
    rfl
  | cons d ds' ih =>
    intro z n hds
    have hd : isDigitCh d = true := hds d (by simp)
    rw [List.cons_append, sigBodyAux_cons_some, if_pos hd,
      ih z (10 * n + digitVal d) (fun x hx => hds x (by simp [hx]))]
    rfl

theorem sigBodyAux_digits_d (ds : List Char) : ∀ (z : List Char) (n : Nat),
    (∀ c ∈ ds, isDigitCh c = true) →
    sigBodyAux (ds ++ 'd' :: z) (some n) =
      '\\' :: 'd' :: '\x7b' :: (natDigits (digitsAcc n ds) ++ '\x7d' :: sigBodyAux z none) := by
  induction ds with
  | nil =>
    intro z n _
    rw [List.nil_append, sigBodyAux_cons_some]
    rw [if_neg (by decide), if_neg (by decide), if_pos rfl]
    rfl
  | cons d ds' ih =>
    intro z n hds
    have hd : isDigitCh d = true := hds d (by simp)
    rw [List.cons_append, sigBodyAux_cons_some, if_pos hd,
      ih z (10 * n + digitVal d) (fun x hx => hds x (by simp [hx]))]
    rfl

theorem digitsAcc_head (d : Char) (ds : List Char) :
    digitsAcc (digitVal d) ds = digitsToNat (d :: ds) := by
  show digitsAcc (digitVal d) ds = digitsAcc (10 * 0 + digitVal d) ds
  norm_num

theorem sigBody_chunkA (k : Nat) (z : List Char) :
    sigBodyAux (natDigits k ++ 'A' :: z) none =
      classOpenA ++ natDigits k ++ '\x7d' :: sigBodyAux z none := by
  obtain ⟨d, ds, hnd⟩ := List.exists_cons_of_ne_nil (natDigits_ne_nil k)
  have hdig : ∀ c ∈ natDigits k, isDigitCh c = true := natDigits_all_digit k
  have hd : isDigitCh d = true := hdig d (by rw [hnd]; simp)
  have h1 : sigBodyAux (natDigits k ++ 'A' :: z) none =
      sigBodyAux (ds ++ 'A' :: z) (some (digitVal d)) := by
    rw [hnd, List.cons_append, sigBodyAux_cons_none, if_pos hd]
  rw [h1, sigBodyAux_digits_A ds z (digitVal d)
    (fun x hx => hdig x (by rw [hnd]; exact List.mem_cons_of_mem d hx)), digitsAcc_head,
    show digitsToNat (d :: ds) = k from by rw [← hnd]; exact digitsToNat_natDigits k]

theorem sigBody_chunkD (k : Nat) (z : List Char) :
    sigBodyAux (natDigits k ++ 'd' :: z) none =
      '\\' :: 'd' :: '\x7b' :: (natDigits k ++ '\x7d' :: sigBodyAux z none) := by
  obtain ⟨d, ds, hnd⟩ := List.exists_cons_of_ne_nil (natDigits_ne_nil k)
  have hdig : ∀ c ∈ natDigits k, isDigitCh c = true := natDigits_all_digit k
  have hd : isDigitCh d = true := hdig d (by rw [hnd]; simp)
  have h1 : sigBodyAux (natDigits k ++ 'd' :: z) none =
      sigBodyAux (ds ++ 'd' :: z) (some (digitVal d)) := by
    rw [hnd, List.cons_append, sigBodyAux_cons_none, if_pos hd]
  rw [h1, sigBodyAux_digits_d ds z (digitVal d)
    (fun x hx => hdig x (by rw [hnd]; exact List.mem_cons_of_mem d hx)), digitsAcc_head,
    show digitsToNat (d :: ds) = k from by rw [← hnd]; exact digitsToNat_natDigits k]

theorem sigBody_lit (c : Char) (z : List Char) (h : isDigitCh c = false) :
    sigBodyAux (c :: z) none = escapeCh c ++ sigBodyAux z none := by
  rw [sigBodyAux_cons_none, if_neg (by simp [h])]

/-! ## Matcher step lemmas -/

theorem reMatchF_zero (re : List Char) (m : RMode) (s : List Char) (i : Nat) :
    reMatchF 0 re m s i = none := rfl

theorem reMatchF_nil_norm (fuel : Nat) (s : List Char) (i : Nat) :
    reMatchF (fuel + 1) [] RMode.norm s i = some i := rfl

theorem reMatchF_nil_count (fuel : Nat) (p : Bool) (acc : Nat) (seen : Bool)
    (s : List Char) (i : Nat) :
    reMatchF (fuel + 1) [] (RMode.count p acc seen) s i = none := rfl

theorem reMatchF_count_cons (fuel : Nat) (c : Char) (r : List Char) (p : Bool) (acc : Nat)
    (seen : Bool) (s : List Char) (i : Nat) :
    reMatchF (fuel + 1) (c :: r) (RMode.count p acc seen) s i =
      (if isDigitCh c then reMatchF fuel r (RMode.count p (10 * acc + digitVal c) true) s i
       else if c = '\x7d' then
         (if seen && runCheck (if p then isLetterCh else isDigitCh) s i acc
          then reMatchF fuel r RMode.norm s (i + acc) else none)
       else none) := rfl

theorem reMatchF_one (fuel : Nat) (c : Char) (s : List Char) (i : Nat) :
    reMatchF (fuel + 1) [c] RMode.norm s i =
      (if c = '\\' then none
       else if c = '[' then none
       else (if (s.get? i).any (fun ch => ch == c)
             then reMatchF fuel [] RMode.norm s (i + 1) else none)) := rfl

theorem reMatchF_cons2 (fuel : Nat) (c t : Char) (r2 s : List Char) (i : Nat) :
    reMatchF (fuel + 1) (c :: t :: r2) RMode.norm s i =
      (if c = '\\' then
        (if t = 'b' then
          (if wordBoundaryAt s i then reMatchF fuel r2 RMode.norm s i else none)
         else if t = 'd' then
          (if r2.take 1 = ['\x7b']
           then reMatchF fuel (r2.drop 1) (RMode.count false 0 false) s i else none)
         else if t = 's' then
          (if (s.get? i).any isSpaceJS then reMatchF fuel r2 RMode.norm s (i + 1) else none)
         else
          (if (s.get? i).any (fun ch => ch == t)
           then reMatchF fuel r2 RMode.norm s (i + 1) else none))
      else if c = '[' then
        (if (t :: r2).take 8 = classTail
         then reMatchF fuel ((t :: r2).drop 8) (RMode.count true 0 false) s i else none)
      else
        (if (s.get? i).any (fun ch => ch == c)
         then reMatchF fuel (t :: r2) RMode.norm s (i + 1) else none)) := rfl

/-- The matcher result only depends on the fuel being sufficient. -/
theorem reMatchF_fuel : ∀ (f₁ : Nat) (re : List Char) (m : RMode) (s : List Char) (i : Nat)
    (f₂ : Nat), re.length < f₁ → re.length < f₂ →
    reMatchF f₁ re m s i = reMatchF f₂ re m s i := by
  intro f₁
  induction f₁ with
  | zero => intro re m s i f₂ h₁ h₂; omega
  | succ f ihf =>
    intro re m s i f₂ h₁ h₂
    cases f₂ with
    | zero => omega
    | succ g =>
      cases m with
      | count p acc seen =>
        cases re with
        | nil => rfl
        | cons c r =>
          simp only [List.length_cons] at h₁ h₂
          rw [reMatchF_count_cons, reMatchF_count_cons]
          by_cases hd : isDigitCh c = true
          · rw [if_pos hd, if_pos hd]
            exact ihf r _ s i g (by omega) (by omega)
          · rw [if_neg hd, if_neg hd]
            by_cases hc : c = '\x7d'
            · rw [if_pos hc, if_pos hc]
              by_cases hsr :
                  (seen && runCheck (if p then isLetterCh else isDigitCh) s i acc) = true
              · rw [if_pos hsr, if_pos hsr]
                exact ihf r _ s (i + acc) g (by omega) (by omega)
              · rw [if_neg hsr, if_neg hsr]
            · rw [if_neg hc, if_neg hc]
      | norm =>
        rcases re with _ | ⟨c, _ | ⟨t, r2⟩⟩
        · rfl
        · simp only [List.length_cons] at h₁ h₂
          rw [reMatchF_one, reMatchF_one]
          by_cases h1 : c = '\\'
          · rw [if_pos h1, if_pos h1]
          · rw [if_neg h1, if_neg h1]
            by_cases h2 : c = '['
            · rw [if_pos h2, if_pos h2]
            · rw [if_neg h2, if_neg h2]
              by_cases h3 : ((s.get? i).any fun ch => ch == c) = true
              · rw [if_pos h3, if_pos h3]
                exact ihf [] RMode.norm s (i + 1) g (by simp; omega) (by simp; omega)
              · rw [if_neg h3, if_neg h3]
        · simp only [List.length_cons] at h₁ h₂
          rw [reMatchF_cons2, reMatchF_cons2]
          by_cases h1 : c = '\\'
          · rw [if_pos h1, if_pos h1]
            by_cases hb : t = 'b'
            · rw [if_pos hb, if_pos hb]
              by_cases hw : wordBoundaryAt s i = true
              · rw [if_pos hw, if_pos hw]
                exact ihf r2 _ s i g (by omega) (by omega)
              · rw [if_neg hw, if_neg hw]
            · rw [if_neg hb, if_neg hb]
              by_cases hdd : t = 'd'
              · rw [if_pos hdd, if_pos hdd]
                by_cases hbr : r2.take 1 = ['\x7b']
                · rw [if_pos hbr, if_pos hbr]
                  have hdl : (r2.drop 1).length ≤ r2.length := by
                    rw [List.length_drop]; omega
                  exact ihf (r2.drop 1) _ s i g (by omega) (by omega)
                · rw [if_neg hbr, if_neg hbr]
              · rw [if_neg hdd, if_neg hdd]
                by_cases hss : t = 's'
                · rw [if_pos hss, if_pos hss]
                  by_cases hsp : ((s.get? i).any isSpaceJS) = true
                  · rw [if_pos hsp, if_pos hsp]
                    exact ihf r2 _ s (i + 1) g (by omega) (by omega)
                  · rw [if_neg hsp, if_neg hsp]
                · rw [if_neg hss, if_neg hss]
                  by_cases hcc : ((s.get? i).any fun ch => ch == t) = true
                  · rw [if_pos hcc, if_pos hcc]
                    exact ihf r2 _ s (i + 1) g (by omega) (by omega)
                  · rw [if_neg hcc, if_neg hcc]
          · rw [if_neg h1, if_neg h1]
            by_cases h2 : c = '['
            · rw [if_pos h2, if_pos h2]
              by_cases h3 : (t :: r2).take 8 = classTail
              · rw [if_pos h3, if_pos h3]
                have hdl : ((t :: r2).drop 8).length ≤ (t :: r2).length := by
                  rw [List.length_drop]; omega
                simp only [List.length_cons] at hdl
                exact ihf ((t :: r2).drop 8) _ s i g (by omega) (by omega)
              · rw [if_neg h3, if_neg h3]
            · rw [if_neg h2, if_neg h2]
              by_cases h3 : ((s.get? i).any fun ch => ch == c) = true
              · rw [if_pos h3, if_pos h3]
                exact ihf (t :: r2) _ s (i + 1) g (by simp; omega) (by simp; omega)
              · rw [if_neg h3, if_neg h3]

theorem reMatchAux_eq_F (fuel : Nat) (re : List Char) (m : RMode) (s : List Char) (i : Nat)
    (h : re.length < fuel) :
    reMatchAux re m s i = reMatchF fuel re m s i :=
  reMatchF_fuel (re.length + 1) re m s i fuel (by omega) h

theorem reMatch_nil (s : List Char) (i : Nat) : reMatchAux [] RMode.norm s i = some i := rfl

theorem reMatch_wb (r s : List Char) (i : Nat) :
    reMatchAux ('\\' :: 'b' :: r) RMode.norm s i =
      if wordBoundaryAt s i then reMatchAux r RMode.norm s i else none := by
  unfold reMatchAux
  rw [reMatchF_cons2, if_pos rfl, if_pos rfl,
    ← reMatchAux_eq_F (('\\' :: 'b' :: r).length) r RMode.norm s i
      (by simp only [List.length_cons]; omega)]
  rfl

theorem reMatch_dOpen (rest s : List Char) (i : Nat) :
    reMatchAux ('\\' :: 'd' :: '\x7b' :: rest) RMode.norm s i =
      reMatchAux rest (RMode.count false 0 false) s i := by
  unfold reMatchAux
  rw [reMatchF_cons2, if_pos rfl, if_neg (by decide), if_pos rfl,
    if_pos (show ('\x7b' :: rest).take 1 = ['\x7b'] from rfl),
    show ('\x7b' :: rest).drop 1 = rest from rfl,
    ← reMatchAux_eq_F (('\\' :: 'd' :: '\x7b' :: rest).length) rest (RMode.count false 0 false)
      s i (by simp only [List.length_cons]; omega)]
  rfl

theorem reMatch_classOpen (rest s : List Char) (i : Nat) :
    reMatchAux (classOpenA ++ rest) RMode.norm s i =
      reMatchAux rest (RMode.count true 0 false) s i := by
  unfold reMatchAux
  rw [show classOpenA ++ rest =
    '[' :: 'A' :: ('-' :: 'Z' :: 'a' :: '-' :: 'z' :: ']' :: '\x7b' :: rest) from rfl]
  rw [reMatchF_cons2, if_neg (by decide), if_pos rfl,
    if_pos (show ('A' :: '-' :: 'Z' :: 'a' :: '-' :: 'z' :: ']' :: '\x7b' :: rest).take 8 =
      classTail from rfl),
    show ('A' :: '-' :: 'Z' :: 'a' :: '-' :: 'z' :: ']' :: '\x7b' :: rest).drop 8 = rest
      from rfl,
    ← reMatchAux_eq_F
      (('[' :: 'A' :: '-' :: 'Z' :: 'a' :: '-' :: 'z' :: ']' :: '\x7b' :: rest).length)
      rest (RMode.count true 0 false) s i (by simp only [List.length_cons]; omega)]
  rfl

theorem reMatch_sAtom (r s : List Char) (i : Nat) :
    reMatchAux ('\\' :: 's' :: r) RMode.norm s i =
      if (s.get? i).any isSpaceJS then reMatchAux r RMode.norm s (i + 1) else none := by
  unfold reMatchAux
  rw [reMatchF_cons2, if_pos rfl, if_neg (by decide), if_neg (by decide), if_pos rfl,
    ← reMatchAux_eq_F (('\\' :: 's' :: r).length) r RMode.norm s (i + 1)
      (by simp only [List.length_cons]; omega)]
  rfl

theorem reMatch_esc (c : Char) (r s : List Char) (i : Nat)
    (hb : c ≠ 'b') (hd : c ≠ 'd') (hs : c ≠ 's') :
    reMatchAux ('\\' :: c :: r) RMode.norm s i =
      if (s.get? i).any (fun ch => ch == c) then reMatchAux r RMode.norm s (i + 1)
      else none := by
  unfold reMatchAux
  rw [reMatchF_cons2, if_pos rfl, if_neg hb, if_neg hd, if_neg hs,
    ← reMatchAux_eq_F (('\\' :: c :: r).length) r RMode.norm s (i + 1)
      (by simp only [List.length_cons]; omega)]
  rfl

theorem reMatch_plain (c : Char) (r s : List Char) (i : Nat)
    (h1 : c ≠ '\\') (h2 : c ≠ '[') :
    reMatchAux (c :: r) RMode.norm s i =
      if (s.get? i).any (fun ch => ch == c) then reMatchAux r RMode.norm s (i + 1)
      else none := by
  unfold reMatchAux
  cases r with
  | nil =>
    rw [reMatchF_one, if_neg h1, if_neg h2]
    by_cases h3 : ((s.get? i).any fun ch => ch == c) = true
    · rw [if_pos h3, if_pos h3]
      rfl
    · rw [if_neg h3, if_neg h3]
  | cons t r2 =>
    rw [reMatchF_cons2, if_neg h1, if_neg h2,
      ← reMatchAux_eq_F ((c :: t :: r2).length) (t :: r2) RMode.norm s (i + 1)
        (by simp only [List.length_cons]; omega)]
    rfl

theorem reMatch_count_cons (c : Char) (r : List Char) (p : Bool) (acc : Nat) (seen : Bool)
    (s : List Char) (i : Nat) :
    reMatchAux (c :: r) (RMode.count p acc seen) s i =
      if isDigitCh c then reMatchAux r (RMode.count p (10 * acc + digitVal c) true) s i
      else if c = '\x7d' then
        (if seen && runCheck (if p then isLetterCh else isDigitCh) s i acc
         then reMatchAux r RMode.norm s (i + acc) else none)
      else none := by
  unfold reMatchAux
  rw [reMatchF_count_cons,
    ← reMatchAux_eq_F ((c :: r).length) r (RMode.count p (10 * acc + digitVal c) true) s i
      (by simp only [List.length_cons]; omega),
    ← reMatchAux_eq_F ((c :: r).length) r RMode.norm s (i + acc)
      (by simp only [List.length_cons]; omega)]
  rfl

theorem reMatch_count_digits (ds : List Char) :
    ∀ (r : List Char) (p : Bool) (acc : Nat) (s : List Char) (i : Nat),
    (∀ c ∈ ds, isDigitCh c = true) →
    reMatchAux (ds ++ '\x7d' :: r) (RMode.count p acc true) s i =
      if runCheck (if p then isLetterCh else isDigitCh) s i (digitsAcc acc ds) = true
      then reMatchAux r RMode.norm s (i + digitsAcc acc ds) else none := by
  induction ds with
  | nil =>
    intro r p acc s i _
    have hd7 : ¬ isDigitCh '\x7d' = true := by decide
    have he7 : ('\x7d' : Char) = '\x7d' := rfl
    rw [List.nil_append, reMatch_count_cons, if_neg hd7, if_pos he7, Bool.true_and,
      show digitsAcc acc [] = acc from rfl]
  | cons d ds' ih =>
    intro r p acc s i hds
    have hd : isDigitCh d = true := hds d (by simp)
    rw [List.cons_append, reMatch_count_cons, if_pos hd,
      ih r p _ s i (fun x hx => hds x (by simp [hx]))]
    rfl

theorem reMatch_chunkA (k : Nat) (rest s : List Char) (i : Nat) :
    reMatchAux (classOpenA ++ (natDigits k ++ '\x7d' :: rest)) RMode.norm s i =
      if runCheck isLetterCh s i k = true
      then reMatchAux rest RMode.norm s (i + k) else none := by
  rw [reMatch_classOpen]
  obtain ⟨d, ds, hnd⟩ := List.exists_cons_of_ne_nil (natDigits_ne_nil k)
  have hdig := natDigits_all_digit k
  have hd : isDigitCh d = true := hdig d (by rw [hnd]; simp)
  have h1 : reMatchAux (natDigits k ++ '\x7d' :: rest) (RMode.count true 0 false) s i =
      reMatchAux (ds ++ '\x7d' :: rest) (RMode.count true (10 * 0 + digitVal d) true) s i := by
    rw [hnd, List.cons_append, reMatch_count_cons, if_pos hd]
  have hacc : digitsAcc (10 * 0 + digitVal d) ds = k := by
    rw [show 10 * 0 + digitVal d = digitVal d by omega, digitsAcc_head, ← hnd]
    exact digitsToNat_natDigits k
  rw [h1, reMatch_count_digits ds rest true _ s i
    (fun x hx => hdig x (by rw [hnd]; exact List.mem_cons_of_mem d hx)), hacc]
  rfl

theorem reMatch_chunkD (k : Nat) (rest s : List Char) (i : Nat) :
    reMatchAux ('\\' :: 'd' :: '\x7b' :: (natDigits k ++ '\x7d' :: rest)) RMode.norm s i =
      if runCheck isDigitCh s i k = true
      then reMatchAux rest RMode.norm s (i + k) else none := by
  rw [reMatch_dOpen]
  obtain ⟨d, ds, hnd⟩ := List.exists_cons_of_ne_nil (natDigits_ne_nil k)
  have hdig := natDigits_all_digit k
  have hd : isDigitCh d = true := hdig d (by rw [hnd]; simp)
  have h1 : reMatchAux (natDigits k ++ '\x7d' :: rest) (RMode.count false 0 false) s i =
      reMatchAux (ds ++ '\x7d' :: rest) (RMode.count false (10 * 0 + digitVal d) true) s i := by
    rw [hnd, List.cons_append, reMatch_count_cons, if_pos hd]
  have hacc : digitsAcc (10 * 0 + digitVal d) ds = k := by
    rw [show 10 * 0 + digitVal d = digitVal d by omega, digitsAcc_head, ← hnd]
    exact digitsToNat_natDigits k
  rw [h1, reMatch_count_digits ds rest false _ s i
    (fun x hx => hdig x (by rw [hnd]; exact List.mem_cons_of_mem d hx)), hacc]
  rfl

/-! ## Positive direction: the synthesized body consumes exactly a
same-shaped stretch of the input -/

theorem get?_of_take_cons {s : List Char} {i n : Nat} {c : Char} {y : List Char}
    (h : (s.drop i).take (n + 1) = c :: y) :
    s.get? i = some c ∧ (s.drop (i + 1)).take n = y := by
  cases hs : s.drop i with
  | nil => rw [hs] at h; simp at h
  | cons a as =>
    rw [hs, List.take_succ_cons] at h
    injection h with h1 h2
    subst h1
    have hlt : i < s.length := by
      by_contra hge
      rw [List.drop_eq_nil_of_le (by omega)] at hs
      cases hs
    have hdi := @List.drop_eq_getElem_cons _ i s hlt
    rw [hs] at hdi
    injection hdi with h3 h4
    constructor
    · rw [List.get?_eq_getElem?, List.getElem?_eq_getElem hlt, ← h3]
    · rw [← h4, ← h2]

theorem take_prefix_of_append {s : List Char} {i : Nat} {a b : List Char}
    (h : (s.drop i).take (a ++ b).length = a ++ b) :
    (s.drop i).take a.length = a ∧ (s.drop (i + a.length)).take b.length = b := by
  constructor
  · have := congrArg (List.take a.length) h
    rw [List.take_take, List.take_left] at this
    rwa [Nat.min_eq_left (by rw [List.length_append]; omega)] at this
  · have := congrArg (List.drop a.length) h
    rw [List.drop_left] at this
    rw [List.length_append, List.drop_take, List.drop_drop, Nat.add_sub_cancel_left] at this
    exact this

theorem reMatch_body_shape : ∀ (N : Nat) (cs : List Char), cs.length ≤ N →
    ∀ (s tail : List Char) (i : Nat),
    (s.drop i).take cs.length = cs →
    reMatchAux (sigBody (sigCore cs) ++ tail) RMode.norm s i =
      reMatchAux tail RMode.norm s (i + cs.length) := by
  intro N
  induction N with
  | zero =>
    intro cs hlen s tail i _
    have hnil : cs = [] := List.length_eq_zero.mp (by omega)
    subst hnil
    rw [show sigBody (sigCore ([] : List Char)) = [] from rfl, List.nil_append]
    simp
  | succ N ih =>
    intro cs hlen s tail i hpre
    cases cs with
    | nil =>
      rw [show sigBody (sigCore ([] : List Char)) = [] from rfl, List.nil_append]
      simp
    | cons c cs' =>
      by_cases hl : isLetterCh c = true
      · -- maximal letter run
        have hsplit := @List.takeWhile_append_dropWhile _ isLetterCh (c :: cs')
        have hrun_all : ∀ x ∈ (c :: cs').takeWhile isLetterCh, isLetterCh x = true :=
          fun x hx => List.mem_takeWhile_imp hx
        have hrest_head : ∀ x, ((c :: cs').dropWhile isLetterCh).head? = some x →
            isLetterCh x = false := fun x hx => dropWhile_head_false _ _ hx
        have hrun_ne : (c :: cs').takeWhile isLetterCh ≠ [] := by
          rw [List.takeWhile_cons_of_pos hl]; simp
        rw [← hsplit] at hpre ⊢
        generalize hrun : (c :: cs').takeWhile isLetterCh = run at *
        generalize hrest : (c :: cs').dropWhile isLetterCh = rest at *
        obtain ⟨hk, hrest_at⟩ := take_prefix_of_append hpre
        have hrc : runCheck isLetterCh s i run.length = true := by
          unfold runCheck
          rw [hk]
          simp only [beq_self_eq_true, Bool.true_and, List.all_eq_true]
          intro x hx
          exact hrun_all x hx
        have hsig : sigCore (run ++ rest) = natDigits run.length ++ 'A' :: sigCore rest :=
          sigCore_letter_chunk run rest hrun_ne hrun_all hrest_head
        rw [sigBody, hsig, sigBody_chunkA, List.append_assoc, List.append_assoc,
          List.cons_append, reMatch_chunkA, if_pos hrc]
        have hlen' : rest.length ≤ N := by
          have h1 := congrArg List.length hsplit
          have h2 : 1 ≤ run.length := List.length_pos.mpr hrun_ne
          rw [List.length_append] at h1
          simp only [List.length_cons] at h1 hlen
          omega
        rw [show sigBodyAux (sigCore rest) none = sigBody (sigCore rest) from rfl,
          ih rest hlen' s tail (i + run.length) hrest_at, List.length_append, Nat.add_assoc]
      · by_cases hd : isDigitCh c = true
        · -- maximal digit run
          have hsplit := @List.takeWhile_append_dropWhile _ isDigitCh (c :: cs')
          have hrun_all : ∀ x ∈ (c :: cs').takeWhile isDigitCh, isDigitCh x = true :=
            fun x hx => List.mem_takeWhile_imp hx
          have hrest_head : ∀ x, ((c :: cs').dropWhile isDigitCh).head? = some x →
              isDigitCh x = false := fun x hx => dropWhile_head_false _ _ hx
          have hrun_ne : (c :: cs').takeWhile isDigitCh ≠ [] := by
            rw [List.takeWhile_cons_of_pos hd]; simp
          rw [← hsplit] at hpre ⊢
          generalize hrun : (c :: cs').takeWhile isDigitCh = run at *
          generalize hrest : (c :: cs').dropWhile isDigitCh = rest at *
          obtain ⟨hk, hrest_at⟩ := take_prefix_of_append hpre
          have hrc : runCheck isDigitCh s i run.length = true := by
            unfold runCheck
            rw [hk]
            simp only [beq_self_eq_true, Bool.true_and, List.all_eq_true]
            intro x hx
            exact hrun_all x hx
          have hsig : sigCore (run ++ rest) = natDigits run.length ++ 'd' :: sigCore rest :=
            sigCore_digit_chunk run rest hrun_ne hrun_all hrest_head
          rw [sigBody, hsig, sigBody_chunkD, List.cons_append, List.cons_append,
            List.cons_append, List.append_assoc, List.cons_append, reMatch_chunkD, if_pos hrc]
          have hlen' : rest.length ≤ N := by
            have h1 := congrArg List.length hsplit
            have h2 : 1 ≤ run.length := List.length_pos.mpr hrun_ne
            rw [List.length_append] at h1
            simp only [List.length_cons] at h1 hlen
            omega
          rw [show sigBodyAux (sigCore rest) none = sigBody (sigCore rest) from rfl,
            ih rest hlen' s tail (i + run.length) hrest_at, List.length_append, Nat.add_assoc]
        · -- literal separator character
          have hl' : isLetterCh c = false := by simpa using hl
          have hd' : isDigitCh c = false := by simpa using hd
          obtain ⟨hget, hrest_at⟩ :=
            @get?_of_take_cons _ _ cs'.length _ _ (by simpa using hpre)
          rw [sigBody, sigCore_lit_chunk c cs' hl' hd', sigBody_lit c _ hd',
            List.append_assoc]
          have hlen' : cs'.length ≤ N := by
            simp only [List.length_cons] at hlen
            omega
          have hihres := ih cs' hlen' s tail (i + 1) hrest_at
          have hstep : reMatchAux (escapeCh c ++ (sigBodyAux (sigCore cs') none ++ tail))
              RMode.norm s i =
              reMatchAux (sigBody (sigCore cs') ++ tail) RMode.norm s (i + 1) := by
            by_cases hsp : c = ' '
            · subst hsp
              rw [show escapeCh ' ' = ['\\', 's'] from rfl, List.cons_append,
                List.cons_append, List.nil_append, reMatch_sAtom, hget]
              simp [show isSpaceJS ' ' = true from rfl]
              rfl
            · have hmeta := escapeCh c
              by_cases hm : (c = '.' || c = '-' || c = '+' || c = '*' || c = '?' || c = '^' ||
                  c = '$' || c = '\x7b' || c = '\x7d' || c = '(' || c = ')' || c = '|' ||
                  c = '[' || c = ']' || c = '\\') = true
              · have hesc : escapeCh c = ['\\', c] := by rw [escapeCh, if_pos hm]
                have hcb : c ≠ 'b' := fun hc => by rw [hc] at hl'; exact absurd hl' (by decide)
                have hcd : c ≠ 'd' := fun hc => by rw [hc] at hl'; exact absurd hl' (by decide)
                have hcs : c ≠ 's' := fun hc => by rw [hc] at hl'; exact absurd hl' (by decide)
                rw [hesc, List.cons_append, List.cons_append, List.nil_append,
                  reMatch_esc c _ s i hcb hcd hcs, hget]
                simp
                rfl
              · have hesc : escapeCh c = [c] := by
                  rw [escapeCh, if_neg (by simpa using hm), if_neg hsp]
                simp only [Bool.or_eq_true, decide_eq_true_eq] at hm
                push_neg at hm
                have hbs : c ≠ '\\' := hm.2
                have hlb : c ≠ '[' := hm.1.1.2
                rw [hesc, List.cons_append, List.nil_append,
                  reMatch_plain c _ s i hbs hlb, hget]
                simp
                rfl
          rw [hstep, hihres]
          simp only [List.length_cons]
          rw [show i + 1 + cs'.length = i + (cs'.length + 1) by omega]

/-! ## Negative direction: whatever the synthesized body consumes inside an
all-word-character string has exactly the source shape -/

/-- The first character of a consumed stretch agrees in class with the
first character of the source value. -/
def headClassOk : List Char → List Char → Prop
  | [], u => u = []
  | c :: _, u => ∃ d u', u = d :: u' ∧
      (isLetterCh c = true → isLetterCh d = true) ∧
      (isDigitCh c = true → isDigitCh d = true) ∧
      (isLetterCh c = false → isDigitCh c = false → d = c)

theorem reMatch_body_inv : ∀ (N : Nat) (cs : List Char), cs.length ≤ N →
    ∀ (s tail : List Char) (i : Nat),
    (∀ c ∈ s, isWordCh c = true) →
    reMatchAux (sigBody (sigCore cs) ++ tail) RMode.norm s i ≠ none →
    ∃ u : List Char,
      (s.drop i).take u.length = u ∧
      sigCore u = sigCore cs ∧
      headClassOk cs u ∧
      reMatchAux tail RMode.norm s (i + u.length) ≠ none := by
  intro N
  induction N with
  | zero =>
    intro cs hlen s tail i _ hm
    have hnil : cs = [] := List.length_eq_zero.mp (by omega)
    subst hnil
    refine ⟨[], by simp, rfl, rfl, ?_⟩
    rw [show sigBody (sigCore ([] : List Char)) = [] from rfl, List.nil_append] at hm
    simpa using hm
  | succ N ih =>
    intro cs hlen s tail i hw hm
    cases cs with
    | nil =>
      refine ⟨[], by simp, rfl, rfl, ?_⟩
      rw [show sigBody (sigCore ([] : List Char)) = [] from rfl, List.nil_append] at hm
      simpa using hm
    | cons c cs' =>
      by_cases hl : isLetterCh c = true
      · -- maximal letter run
        have hsplit := @List.takeWhile_append_dropWhile _ isLetterCh (c :: cs')
        have hrun_all : ∀ x ∈ (c :: cs').takeWhile isLetterCh, isLetterCh x = true :=
          fun x hx => List.mem_takeWhile_imp hx
        have hrest_head : ∀ x, ((c :: cs').dropWhile isLetterCh).head? = some x →
            isLetterCh x = false := fun x hx => dropWhile_head_false _ _ hx
        have hrun_ne : (c :: cs').takeWhile isLetterCh ≠ [] := by
          rw [List.takeWhile_cons_of_pos hl]; simp
        rw [← hsplit] at hlen hm ⊢
        generalize hrun : (c :: cs').takeWhile isLetterCh = run at *
        generalize hrest : (c :: cs').dropWhile isLetterCh = rest at *
        have hsig : sigCore (run ++ rest) = natDigits run.length ++ 'A' :: sigCore rest :=
          sigCore_letter_chunk run rest hrun_ne hrun_all hrest_head
        rw [sigBody, hsig, sigBody_chunkA, List.append_assoc, List.append_assoc,
          List.cons_append, reMatch_chunkA] at hm
        by_cases hrc : runCheck isLetterCh s i run.length = true
        case neg => rw [if_neg hrc] at hm; exact absurd rfl hm
        rw [if_pos hrc] at hm
        unfold runCheck at hrc
        simp only [Bool.and_eq_true, beq_iff_eq, List.all_eq_true] at hrc
        obtain ⟨hlen_run, hall_run⟩ := hrc
        have hlen' : rest.length ≤ N := by
          have h1 := congrArg List.length hsplit
          have h2 : 1 ≤ run.length := List.length_pos.mpr hrun_ne
          rw [List.length_append] at hlen
          omega
        obtain ⟨u', hu'take, hu'sig, hu'head, hu'cont⟩ :=
          ih rest hlen' s tail (i + run.length) hw
            (by rwa [show sigBodyAux (sigCore rest) none = sigBody (sigCore rest) from rfl]
              at hm)
        have hu1ne : (s.drop i).take run.length ≠ [] := by
          intro hnil
          rw [hnil] at hlen_run
          simp only [List.length_nil] at hlen_run
          exact hrun_ne (List.length_eq_zero.mp hlen_run.symm)
        have hu'headL : ∀ x, u'.head? = some x → isLetterCh x = false := by
          intro x hx
          cases hre : rest with
          | nil =>
            rw [hre] at hu'head
            have : u' = [] := hu'head
            rw [this] at hx
            cases hx
          | cons r0 rest' =>
            rw [hre] at hu'head
            obtain ⟨d, u'', hdu, hp1, hp2, hp3⟩ := hu'head
            rw [hdu] at hx
            injection hx with hx1
            subst hx1
            have hr0 : isLetterCh r0 = false := hrest_head r0 (by rw [hre]; rfl)
            by_cases hr0d : isDigitCh r0 = true
            · exact not_letter_of_digit (hp2 hr0d)
            · rw [hp3 hr0 (by simpa using hr0d)]
              exact hr0
        refine ⟨(s.drop i).take run.length ++ u', ?_, ?_, ?_, ?_⟩
        · rw [List.length_append, hlen_run, take_add', List.drop_drop, hu'take]
        · rw [sigCore_letter_chunk _ u' hu1ne hall_run hu'headL, hu'sig, hlen_run, hsig]
        · obtain ⟨rc, run'', hrc2⟩ := List.exists_cons_of_ne_nil hrun_ne
          subst hrc2
          obtain ⟨d, u'', hdu⟩ := List.exists_cons_of_ne_nil hu1ne
          have hrcl : isLetterCh rc = true := hrun_all rc (by simp)
          have hdl : isLetterCh d = true := by
            apply hall_run
            rw [hdu]; simp
          rw [hdu]
          exact ⟨d, u'' ++ u', rfl, fun _ => hdl,
            (fun hdig => absurd (not_letter_of_digit hdig) (by simp [hrcl])),
            (fun hfl _ => absurd hrcl (by simp [hfl]))⟩
        · rw [List.length_append, hlen_run, ← Nat.add_assoc]
          exact hu'cont
      · by_cases hd : isDigitCh c = true
        · -- maximal digit run
          have hsplit := @List.takeWhile_append_dropWhile _ isDigitCh (c :: cs')
          have hrun_all : ∀ x ∈ (c :: cs').takeWhile isDigitCh, isDigitCh x = true :=
            fun x hx => List.mem_takeWhile_imp hx
          have hrest_head : ∀ x, ((c :: cs').dropWhile isDigitCh).head? = some x →
              isDigitCh x = false := fun x hx => dropWhile_head_false _ _ hx
          have hrun_ne : (c :: cs').takeWhile isDigitCh ≠ [] := by
            rw [List.takeWhile_cons_of_pos hd]; simp
          rw [← hsplit] at hlen hm ⊢
          generalize hrun : (c :: cs').takeWhile isDigitCh = run at *
          generalize hrest : (c :: cs').dropWhile isDigitCh = rest at *
          have hsig : sigCore (run ++ rest) = natDigits run.length ++ 'd' :: sigCore rest :=
            sigCore_digit_chunk run rest hrun_ne hrun_all hrest_head
          rw [sigBody, hsig, sigBody_chunkD, List.cons_append, List.cons_append,
            List.cons_append, List.append_assoc, List.cons_append, reMatch_chunkD] at hm
          by_cases hrc : runCheck isDigitCh s i run.length = true
          case neg => rw [if_neg hrc] at hm; exact absurd rfl hm
          rw [if_pos hrc] at hm
          unfold runCheck at hrc
          simp only [Bool.and_eq_true, beq_iff_eq, List.all_eq_true] at hrc
          obtain ⟨hlen_run, hall_run⟩ := hrc
          have hlen' : rest.length ≤ N := by
            have h1 := congrArg List.length hsplit
            have h2 : 1 ≤ run.length := List.length_pos.mpr hrun_ne
            rw [List.length_append] at hlen
            omega
          obtain ⟨u', hu'take, hu'sig, hu'head, hu'cont⟩ :=
            ih rest hlen' s tail (i + run.length) hw
              (by rwa [show sigBodyAux (sigCore rest) none = sigBody (sigCore rest) from rfl]
                at hm)
          have hu1ne : (s.drop i).take run.length ≠ [] := by
            intro hnil
            rw [hnil] at hlen_run
            simp only [List.length_nil] at hlen_run
            exact hrun_ne (List.length_eq_zero.mp hlen_run.symm)
          have hu'headD : ∀ x, u'.head? = some x → isDigitCh x = false := by
            intro x hx
            cases hre : rest with
            | nil =>
              rw [hre] at hu'head
              have : u' = [] := hu'head
              rw [this] at hx
              cases hx
            | cons r0 rest' =>
              rw [hre] at hu'head
              obtain ⟨d, u'', hdu, hp1, hp2, hp3⟩ := hu'head
              rw [hdu] at hx
              injection hx with hx1
              have hr0 : isDigitCh r0 = false := hrest_head r0 (by rw [hre]; rfl)
              rw [← hx1]
              by_cases hr0l : isLetterCh r0 = true
              · have hdlet := hp1 hr0l
                by_cases hdd : isDigitCh d = true
                · exact absurd hdlet (by simp [not_letter_of_digit hdd])
                · simpa using hdd
              · rw [hp3 (by simpa using hr0l) hr0]
                exact hr0
          refine ⟨(s.drop i).take run.length ++ u', ?_, ?_, ?_, ?_⟩
          · rw [List.length_append, hlen_run, take_add', List.drop_drop, hu'take]
          · rw [sigCore_digit_chunk _ u' hu1ne hall_run hu'headD, hu'sig, hlen_run, hsig]
          · obtain ⟨rc, run'', hrc2⟩ := List.exists_cons_of_ne_nil hrun_ne
            subst hrc2
            obtain ⟨d, u'', hdu⟩ := List.exists_cons_of_ne_nil hu1ne
            have hrcd : isDigitCh rc = true := hrun_all rc (by simp)
            have hdd : isDigitCh d = true := by
              apply hall_run
              rw [hdu]; simp
            rw [hdu]
            exact ⟨d, u'' ++ u', rfl,
              (fun hlet => absurd (not_letter_of_digit hrcd) (by simp [hlet])),
              fun _ => hdd,
              (fun _ hfd => absurd hrcd (by simp [hfd]))⟩
          · rw [List.length_append, hlen_run, ← Nat.add_assoc]
            exact hu'cont
        · -- literal separator
          have hl' : isLetterCh c = false := by simpa using hl
          have hd' : isDigitCh c = false := by simpa using hd
          rw [sigBody, sigCore_lit_chunk c cs' hl' hd', sigBody_lit c _ hd',
            List.append_assoc] at hm
          have hlen' : cs'.length ≤ N := by
            simp only [List.length_cons] at hlen
            omega
          by_cases hsp : c = ' '
          · subst hsp
            rw [show escapeCh ' ' = ['\\', 's'] from rfl, List.cons_append, List.cons_append,
              List.nil_append, reMatch_sAtom] at hm
            rcases hg : s.get? i with _ | ch
            · rw [hg] at hm
              simp at hm
            · rw [hg] at hm
              have hchw : isWordCh ch = true := hw ch (List.get?_mem hg)
              rw [show Option.any isSpaceJS (some ch) = isSpaceJS ch from rfl,
                not_space_of_word hchw] at hm
              simp at hm
          · have hmeta := escapeCh c
            have hstep : reMatchAux (escapeCh c ++ (sigBodyAux (sigCore cs') none ++ tail))
                RMode.norm s i =
                if (s.get? i).any (fun ch => ch == c)
                then reMatchAux (sigBody (sigCore cs') ++ tail) RMode.norm s (i + 1)
                else none := by
              by_cases hmc : (c = '.' || c = '-' || c = '+' || c = '*' || c = '?' || c = '^' ||
                  c = '$' || c = '\x7b' || c = '\x7d' || c = '(' || c = ')' || c = '|' ||
                  c = '[' || c = ']' || c = '\\') = true
              · have hesc : escapeCh c = ['\\', c] := by rw [escapeCh, if_pos hmc]
                have hcb : c ≠ 'b' := fun hc => by rw [hc] at hl'; exact absurd hl' (by decide)
                have hcd : c ≠ 'd' := fun hc => by rw [hc] at hl'; exact absurd hl' (by decide)
                have hcs : c ≠ 's' := fun hc => by rw [hc] at hl'; exact absurd hl' (by decide)
                rw [hesc, List.cons_append, List.cons_append, List.nil_append,
                  reMatch_esc c _ s i hcb hcd hcs]
                rfl
              · have hesc : escapeCh c = [c] := by
                  rw [escapeCh, if_neg (by simpa using hmc), if_neg hsp]
                simp only [Bool.or_eq_true, decide_eq_true_eq] at hmc
                push_neg at hmc
                rw [hesc, List.cons_append, List.nil_append,
                  reMatch_plain c _ s i hmc.2 hmc.1.1.2]
                rfl
            rw [hstep] at hm
            by_cases hcond : ((s.get? i).any fun ch => ch == c) = true
            case neg => rw [if_neg hcond] at hm; exact absurd rfl hm
            rw [if_pos hcond] at hm
            obtain ⟨ch, hg, hch⟩ : ∃ ch, s.get? i = some ch ∧ (ch == c) = true := by
              rcases hg : s.get? i with _ | ch
              · rw [hg] at hcond; cases hcond
              · rw [hg] at hcond
                exact ⟨ch, rfl, by simpa using hcond⟩
            have hchc : ch = c := by simpa using hch
            subst hchc
            obtain ⟨u', hu'take, hu'sig, hu'head, hu'cont⟩ :=
              ih cs' hlen' s tail (i + 1) hw hm
            refine ⟨ch :: u', ?_, ?_, ?_, ?_⟩
            · rw [drop_of_get?_some hg, List.length_cons, List.take_succ_cons, hu'take]
            · rw [sigCore_lit_chunk ch u' hl' hd', hu'sig,
                sigCore_lit_chunk ch cs' hl' hd']
            · exact ⟨ch, u', rfl, fun h => absurd h (by simp [hl']),
                fun h => absurd h (by simp [hd']), fun _ _ => rfl⟩
            · rw [List.length_cons, show i + (u'.length + 1) = (i + 1) + u'.length by omega]
              exact hu'cont

/-! ## Word-boundary structure of all-word-character strings -/

theorem charIsWordAt_all {w : List Char} (hw : ∀ c ∈ w, isWordCh c = true) (j : Nat) :
    charIsWordAt w j = decide (j < w.length) := by
  unfold charIsWordAt
  rcases hg : w.get? j with _ | c
  · have hge : w.length ≤ j := by
      by_contra hlt
      rw [List.get?_eq_getElem?, List.getElem?_eq_getElem (by omega)] at hg
      cases hg
    have hnot : ¬ (j < w.length) := by omega
    show false = decide (j < w.length)
    simp [hnot]
  · have hjw : j < w.length := by
      obtain ⟨h, _⟩ := List.get?_eq_some.mp hg
      exact h
    show isWordCh c = decide (j < w.length)
    rw [hw c (List.get?_mem hg)]
    simp [hjw]

theorem boundary_all_word {w : List Char} (hw : ∀ c ∈ w, isWordCh c = true) (i : Nat) :
    wordBoundaryAt w i = true ↔ (0 < w.length ∧ (i = 0 ∨ i = w.length)) := by
  unfold wordBoundaryAt
  rw [charIsWordAt_all hw i]
  cases i with
  | zero =>
    rw [if_pos rfl]
    by_cases h0 : 0 < w.length
    · simp [h0]
    · simp [h0]
  | succ j =>
    rw [if_neg (by omega), charIsWordAt_all hw]
    by_cases h1 : j + 1 - 1 < w.length <;> by_cases h2 : j + 1 < w.length <;>
      simp [h1, h2] <;> omega

/-- The first character of the value is a word character. -/
def firstIsWord (w : String) : Bool := charIsWordAt w.toList 0

/-- The last character of the value is a word character. -/
def lastIsWord (w : String) : Bool := charIsWordAt w.toList (w.toList.length - 1)

theorem computeSignature_eq_some {v sig : String} (h : computeSignature v = some sig) :
    sig.toList = sigCore v.toList ∧ 2 ≤ (sigCore v.toList).length ∧
      (sigCore v.toList).length ≤ 40 := by
  simp only [computeSignature] at h
  by_cases hlt : (decide ((sigCore v.toList).length < 2) ||
      decide (40 < (sigCore v.toList).length)) = true
  · rw [if_pos hlt] at h
    cases h
  · rw [if_neg hlt] at h
    injection h with h1
    simp only [Bool.or_eq_true, decide_eq_true_eq] at hlt
    push_neg at hlt
    refine ⟨?_, by omega, by omega⟩
    rw [← h1]
    rfl

/-- The regex synthesized for a signature, as a character list. -/
theorem signatureToRegex_toList (sig : String) :
    (signatureToRegex sig).toList = '\\' :: 'b' :: (sigBody sig.toList ++ ['\\', 'b']) := rfl

/-! ## Claim C1 -/

/-- C1 counterexample: the claim asserts that the regex synthesized from a
value's signature (of length 2..40) matches the original value; but for the
token value `-1234` (signature `-4d`, length 3) the synthesized regex
`\b-\d{4}\b` does not match `-1234` at all under JS word-boundary
semantics, because no word boundary precedes the leading separator. -/
theorem c1_counterexample :
    computeSignature "-1234" = some "-4d" ∧
    jsTest (signatureToRegex "-4d") "-1234" = false := by
  constructor
  · decide
  · decide

/-- C1 (amended): `computeSignature` collapses each maximal letter run into
`<runLength>A`, each maximal digit run into `<runLength>d` and copies every
other character verbatim (`AB12-3456` yields `2A2d-4d`); the regex
synthesized from a signature of length 2..40 matches (JS substring test
with word-boundary semantics) the original value and every other value of
identical shape provided the value begins and ends with a word character
(e.g. `XY99-0001`), and matches no value consisting of word characters
whose letter-run or digit-run lengths differ; values that begin or end with
a separator (e.g. `-1234`) need not be matched by their own regex, and the
concrete non-matches `A12-3456` and `AB123-456` hold. -/
theorem c1_signature_regex_roundtrip :
    (computeSignature "AB12-3456" = some "2A2d-4d" ∧
     jsTest (signatureToRegex "2A2d-4d") "AB12-3456" = true ∧
     jsTest (signatureToRegex "2A2d-4d") "XY99-0001" = true ∧
     jsTest (signatureToRegex "2A2d-4d") "A12-3456" = false ∧
     jsTest (signatureToRegex "2A2d-4d") "AB123-456" = false) ∧
    (∀ run rest : List Char, run ≠ [] → (∀ c ∈ run, isLetterCh c = true) →
      (∀ c, rest.head? = some c → isLetterCh c = false) →
      sigCore (run ++ rest) = natDigits run.length ++ 'A' :: sigCore rest) ∧
    (∀ run rest : List Char, run ≠ [] → (∀ c ∈ run, isDigitCh c = true) →
      (∀ c, rest.head? = some c → isDigitCh c = false) →
      sigCore (run ++ rest) = natDigits run.length ++ 'd' :: sigCore rest) ∧
    (∀ (c : Char) (rest : List Char), isLetterCh c = false → isDigitCh c = false →
      sigCore (c :: rest) = c :: sigCore rest) ∧
    (∀ v w sig : String, computeSignature v = some sig →
      sigCore w.toList = sig.toList →
      firstIsWord w = true → lastIsWord w = true →
      jsTest (signatureToRegex sig) w = true) ∧
    (∀ v w sig : String, computeSignature v = some sig →
      (∀ c ∈ w.toList, isWordCh c = true) →
      sigCore w.toList ≠ sig.toList →
      jsTest (signatureToRegex sig) w = false) := by
  refine ⟨⟨by decide, by decide, by decide, by decide, by decide⟩,
    sigCore_letter_chunk, sigCore_digit_chunk, sigCore_lit_chunk, ?_, ?_⟩
  · -- positive direction
    intro v w sig _ hshape hfst hlst
    have hne : w.toList ≠ [] := by
      intro hnil
      unfold firstIsWord charIsWordAt at hfst
      rw [hnil] at hfst
      cases hfst
    have hpos : 0 < w.toList.length := List.length_pos.mpr hne
    unfold jsTest
    rw [signatureToRegex_toList]
    apply List.any_eq_true.mpr
    refine ⟨0, List.mem_range.mpr (by omega), ?_⟩
    rw [reMatch_wb]
    have hb0 : wordBoundaryAt w.toList 0 = true := by
      unfold wordBoundaryAt
      rw [if_pos rfl]
      unfold firstIsWord at hfst
      rw [hfst]
      rfl
    rw [if_pos hb0, ← hshape,
      reMatch_body_shape w.toList.length w.toList (le_refl _) w.toList ['\\', 'b'] 0
        (by simp)]
    have hbL : wordBoundaryAt w.toList w.toList.length = true := by
      unfold wordBoundaryAt
      rw [if_neg (by omega)]
      unfold lastIsWord at hlst
      rw [hlst]
      have hout : charIsWordAt w.toList w.toList.length = false := by
        unfold charIsWordAt
        rw [List.get?_eq_getElem?, List.getElem?_eq_none (by omega)]
      rw [hout]
      rfl
    rw [Nat.zero_add, reMatch_wb, if_pos hbL, reMatch_nil]
    rfl
  · -- negative direction
    intro v w sig hv hw hnshape
    obtain ⟨hsgl, hlen2, _⟩ := computeSignature_eq_some hv
    have hsne : sigCore v.toList ≠ [] := by
      intro hnil
      rw [hnil] at hlen2
      simp at hlen2
    by_contra hany
    rw [Bool.not_eq_false] at hany
    unfold jsTest at hany
    rw [signatureToRegex_toList] at hany
    obtain ⟨i, hir, hisome⟩ := List.any_eq_true.mp hany
    rw [reMatch_wb] at hisome
    by_cases hb : wordBoundaryAt w.toList i = true
    case neg =>
      rw [if_neg hb] at hisome
      cases hisome
    rw [if_pos hb] at hisome
    obtain ⟨hwpos, hi0L⟩ := (boundary_all_word hw i).mp hb
    rw [hsgl] at hisome
    have hmne : reMatchAux (sigBody (sigCore v.toList) ++ ['\\', 'b']) RMode.norm
        w.toList i ≠ none := by
      intro hnone
      rw [hnone] at hisome
      cases hisome
    obtain ⟨u, hutake, husig, _, hucont⟩ :=
      reMatch_body_inv v.toList.length v.toList (le_refl _) w.toList ['\\', 'b'] i hw hmne
    have hcont2 : wordBoundaryAt w.toList (i + u.length) = true := by
      by_contra hnb
      apply hucont
      rw [reMatch_wb, if_neg hnb]
    obtain ⟨_, hiuL⟩ := (boundary_all_word hw (i + u.length)).mp hcont2
    rcases hi0L with hi0 | hiL
    · subst hi0
      rcases hiuL with hu0 | huL
      · have hu0' : u = [] := List.length_eq_zero.mp (by omega)
        rw [hu0'] at husig
        exact hsne husig.symm
      · have hulen : u.length = w.toList.length := by omega
        have huw : u = w.toList := by
          have h2 := hutake
          rw [List.drop_zero, hulen, List.take_length] at h2
          exact h2.symm
        rw [huw] at husig
        exact hnshape (by rw [husig, hsgl])
    · rw [hiL, List.drop_length, List.take_nil] at hutake
      rw [← hutake] at husig
      exact hsne husig.symm

/-- C1 witness: the general clauses of the round-trip theorem applied at
concrete values. -/
theorem c1_witness :
    jsTest (signatureToRegex "2A2d-4d") "ZZ77-1234" = true ∧
    jsTest (signatureToRegex "2A2d-4d") "ZZ771234" = false := by
  constructor
  · exact c1_signature_regex_roundtrip.2.2.2.2.1 "AB12-3456" "ZZ77-1234" "2A2d-4d"
      (by decide) (by decide) (by decide) (by decide)
  · exact c1_signature_regex_roundtrip.2.2.2.2.2 "AB12-3456" "ZZ771234" "2A2d-4d"
      (by decide) (by decide) (by decide)

/-! ## Tokenizer (`tokenize`, `detectCSV`, `parseCSVRow`, source lines 56-140) -/

/-- `content.split(/\r?\n/)`: a line break is `\n` optionally preceded by
`\r`; a lone `\r` is ordinary content. -/
def splitLinesAux : List Char → List Char → List String
  | [], cur => [String.mk cur.reverse]
  | '\r' :: '\n' :: rest, cur => String.mk cur.reverse :: splitLinesAux rest []
  | '\n' :: rest, cur => String.mk cur.reverse :: splitLinesAux rest []
  | c :: rest, cur => splitLinesAux rest (c :: cur)

def splitLinesJS (content : String) : List String := splitLinesAux content.toList []

/-- JS `String.prototype.trim`: strip leading and trailing whitespace. -/
def trimJS (s : String) : String :=
  String.mk (((s.toList.dropWhile isSpaceJS).reverse.dropWhile isSpaceJS).reverse)

/-- The minimal quoted-field CSV row parser (`parseCSVRow`): inside quotes a
doubled quote is a literal quote; outside quotes a comma separates fields. -/
def parseRowAux : List Char → List Char → Bool → List String
  | [], cur, _ => [String.mk cur.reverse]
  | '"' :: '"' :: rest, cur, true => parseRowAux rest ('"' :: cur) true
  | '"' :: rest, cur, true => parseRowAux rest cur false
  | c :: rest, cur, true => parseRowAux rest (c :: cur) true
  | '"' :: rest, cur, false => parseRowAux rest cur true
  | ',' :: rest, cur, false => String.mk cur.reverse :: parseRowAux rest [] false
  | c :: rest, cur, false => parseRowAux rest (c :: cur) false

def parseCSVRow (line : String) : List String := parseRowAux line.toList [] false

/-- The header-shape test applied to each trimmed header field: a leading
letter or underscore, then only word characters, whitespace, dot, slash or
hyphen, with the length bound `detectCSV` also imposes. -/
def headerFieldOk (h : String) : Bool :=
  let t := (trimJS h).toList
  (match t with
   | [] => false
   | c :: rest => (isLetterCh c || c = '_') &&
       rest.all (fun x => isWordCh x || isSpaceJS x || x = '.' || x = '/' || x = '-')) &&
  decide (t.length < 60)

/-- `detectCSV`: at least two lines, a comma in the first line, at least two
parsed header fields, and every field looks like a label. -/
def detectCSV (lines : List String) : Bool :=
  if lines.length < 2 then false
  else
    if !((lines.headD "").toList.contains ',') then false
    else
      if (parseCSVRow (lines.headD "")).length < 2 then false
      else (parseCSVRow (lines.headD "")).all headerFieldOk

/-- `line.split(/\s+/).filter(w => w.length > 0)`. -/
def splitWsAux : List Char → List Char → List String
  | [], cur => if cur.isEmpty then [] else [String.mk cur.reverse]
  | c :: rest, cur =>
    if isSpaceJS c then
      (if cur.isEmpty then splitWsAux rest [] else String.mk cur.reverse :: splitWsAux rest [])
    else splitWsAux rest (c :: cur)

def splitWsJS (line : String) : List String := splitWsAux line.toList []

structure Token where
  value : String
  line : Nat
  column : Option Nat
  header : Option String
  fullLine : Bool
deriving DecidableEq

structure TokenData where
  isCSV : Bool
  headers : List String
  tokens : List Token
  lineRecs : List (Nat × String)
deriving DecidableEq

/-- Tokens of one CSV data row: trimmed non-empty fields with their column
index and resolved header name (`headers[col] || column_<col>`). -/
def rowTokens (headers : List String) (lineNo : Nat) (line : String) : List Token :=
  (parseCSVRow line).enum.filterMap (fun ce =>
    let v := trimJS ce.2
    if v = "" then none
    else some ⟨v, lineNo, some ce.1,
      some (match headers.get? ce.1 with
            | some h => if h = "" then "column_" ++ toString ce.1 else h
            | none => "column_" ++ toString ce.1), false⟩)

/-- `tokenize`: CSV mode emits one token per non-empty field of each
non-blank data row; free-text mode emits one token per whitespace-separated
word plus one full-line token per non-blank line. -/
def tokenize (content : String) : TokenData :=
  let lines := splitLinesJS content
  let isCSV := detectCSV lines
  { isCSV := isCSV,
    headers := if isCSV then parseCSVRow (lines.headD "") else [],
    tokens :=
      if isCSV then
        (((lines.drop 1).enum.filter (fun jl => trimJS jl.2 != "")).map
          (fun jl => rowTokens (parseCSVRow (lines.headD "")) (jl.1 + 2) jl.2)).join
      else
        ((lines.enum.filter (fun jl => trimJS jl.2 != "")).map
          (fun jl =>
            (splitWsJS jl.2).map (fun w => ⟨w, jl.1 + 1, none, none, false⟩) ++
            [⟨trimJS jl.2, jl.1 + 1, none, none, true⟩])).join,
    lineRecs :=
      if isCSV then
        ((lines.drop 1).enum.filter (fun jl => trimJS jl.2 != "")).map
          (fun jl => (jl.1 + 2, jl.2))
      else
        (lines.enum.filter (fun jl => trimJS jl.2 != "")).map
          (fun jl => (jl.1 + 1, jl.2)) }

theorem tokenize_isCSV (content : String) :
    (tokenize content).isCSV = detectCSV (splitLinesJS content) := rfl

/-! ## Claims C6 and C10 -/

/-- The claim's header-shape condition, stated verbatim: after a leading
letter or underscore only word characters, the SPACE character, '.', '/'
or '-'; trimmed length below 60. -/
def claimHeaderOkSpace (f : String) : Prop :=
  (∃ c rest, (trimJS f).toList = c :: rest ∧ (isLetterCh c = true ∨ c = '_') ∧
    ∀ x ∈ rest, isWordCh x = true ∨ x = ' ' ∨ x = '.' ∨ x = '/' ∨ x = '-') ∧
  (trimJS f).toList.length < 60

/-- The amended header-shape condition: any JS whitespace character (the
source regex uses `\s`), not only the space character. -/
def specHeaderOkWS (f : String) : Prop :=
  (∃ c rest, (trimJS f).toList = c :: rest ∧ (isLetterCh c = true ∨ c = '_') ∧
    ∀ x ∈ rest, isWordCh x = true ∨ isSpaceJS x = true ∨ x = '.' ∨ x = '/' ∨ x = '-') ∧
  (trimJS f).toList.length < 60

theorem headerFieldOk_iff (f : String) :
    headerFieldOk f = true ↔ specHeaderOkWS f := by
  unfold headerFieldOk specHeaderOkWS
  cases ht : (trimJS f).toList with
  | nil =>
    simp
  | cons c rest =>
    simp only [Bool.and_eq_true, decide_eq_true_eq]
    constructor
    · intro ⟨h1, h2⟩
      simp only [Bool.and_eq_true, Bool.or_eq_true, decide_eq_true_eq,
        List.all_eq_true] at h1
      obtain ⟨hc, hall⟩ := h1
      refine ⟨⟨c, rest, rfl, hc, ?_⟩, h2⟩
      intro x hx
      have := hall x hx
      tauto
    · intro ⟨⟨c', rest', heq, hc, hall⟩, hlen⟩
      injection heq with he1 he2
      subst he1
      subst he2
      constructor
      · simp only [Bool.and_eq_true, Bool.or_eq_true, decide_eq_true_eq,
          List.all_eq_true]
        refine ⟨hc, ?_⟩
        intro x hx
        have := hall x hx
        tauto
      · exact hlen

/-- C6 counterexample: the first header field of `a<TAB>b,c` contains a tab
character; the source's `\s` class accepts it and the file is treated as
tabular, while the claim's space-only shape condition rejects the field —
so the claimed "iff" fails on this input. -/
theorem c6_counterexample :
    (tokenize "a\tb,c\nx,y").isCSV = true ∧
    parseCSVRow "a\tb,c" = ["a\tb", "c"] ∧
    ¬ claimHeaderOkSpace "a\tb" := by
  refine ⟨by decide, by decide, ?_⟩
  intro ⟨⟨c, rest, heq, _, hall⟩, _⟩
  have ht : (trimJS "a\tb").toList = ['a', '\t', 'b'] := by decide
  rw [ht] at heq
  injection heq with he1 he2
  have hmem : '\t' ∈ rest := by rw [← he2]; simp
  have := hall '\t' hmem
  rcases this with h | h | h | h | h
  · exact absurd h (by decide)
  · exact absurd h (by decide)
  · exact absurd h (by decide)
  · exact absurd h (by decide)
  · exact absurd h (by decide)

/-- C6 (amended): the tokenizer treats content as tabular iff the first
line contains a comma, parses as a delimited row of at least two fields,
and every trimmed field starts with a letter or underscore, contains only
word characters, whitespace (the class `\s`, not only the space
character), '.', '/' or '-', and has length below 60, with at least two
lines present; `Name,Email,Signup Date` with two data rows is tabular and
`192.168.1.1 failed login` is free text. -/
theorem c6_tabular_detection :
    (∀ content : String,
      (tokenize content).isCSV = true ↔
        (2 ≤ (splitLinesJS content).length ∧
         ((splitLinesJS content).headD "").toList.contains ',' = true ∧
         2 ≤ (parseCSVRow ((splitLinesJS content).headD "")).length ∧
         ∀ f ∈ parseCSVRow ((splitLinesJS content).headD ""), specHeaderOkWS f)) ∧
    (tokenize "Name,Email,Signup Date\nx,y,z\na,b,c").isCSV = true ∧
    (tokenize "192.168.1.1 failed login\nsecond line").isCSV = false := by
  refine ⟨?_, by decide, by decide⟩
  intro content
  rw [tokenize_isCSV]
  unfold detectCSV
  by_cases h1 : (splitLinesJS content).length < 2
  · rw [if_pos h1]
    constructor
    · intro h; cases h
    · intro ⟨h, _⟩; omega
  · rw [if_neg h1]
    by_cases h2 : ((splitLinesJS content).headD "").toList.contains ',' = true
    · rw [if_neg (by rw [h2]; decide)]
      by_cases h3 : (parseCSVRow ((splitLinesJS content).headD "")).length < 2
      · rw [if_pos h3]
        constructor
        · intro h; cases h
        · intro ⟨_, _, h, _⟩; omega
      · rw [if_neg h3]
        rw [List.all_eq_true]
        constructor
        · intro hall
          exact ⟨by omega, h2, by omega, fun f hf => (headerFieldOk_iff f).mp (hall f hf)⟩
        · intro ⟨_, _, _, hall⟩ f hf
          exact (headerFieldOk_iff f).mpr (hall f hf)
    · rw [if_pos (by rw [Bool.not_eq_true] at h2; rw [h2]; decide)]
      constructor
      · intro h; cases h
      · intro ⟨_, h, _⟩; exact absurd h h2

/-- C6 witness: the amended equivalence instantiated at the tabular sample
file. -/
theorem c6_witness :
    2 ≤ (splitLinesJS "Name,Email,Signup Date\nx,y,z\na,b,c").length ∧
    ((splitLinesJS "Name,Email,Signup Date\nx,y,z\na,b,c").headD "").toList.contains ',' =
      true ∧
    2 ≤ (parseCSVRow ((splitLinesJS "Name,Email,Signup Date\nx,y,z\na,b,c").headD "")).length ∧
    ∀ f ∈ parseCSVRow ((splitLinesJS "Name,Email,Signup Date\nx,y,z\na,b,c").headD ""),
      specHeaderOkWS f :=
  (c6_tabular_detection.1 "Name,Email,Signup Date\nx,y,z\na,b,c").mp (by decide)

/-- C10: when the content splits into fewer than two lines, the document is
always free text, even if the single line contains commas and header-shaped
fields, because tabular detection requires at least two lines. -/
theorem c10_single_line_not_tabular (content : String)
    (h : (splitLinesJS content).length < 2) :
    (tokenize content).isCSV = false := by
  rw [tokenize_isCSV]
  unfold detectCSV
  rw [if_pos h]

/-- C10 witness: a single header-shaped comma line is still free text. -/
theorem c10_witness :
    (splitLinesJS "name,email").length < 2 ∧ (tokenize "name,email").isCSV = false :=
  ⟨by decide, c10_single_line_not_tabular "name,email" (by decide)⟩

/-! ## Backtracking regex engine for the built-in detector patterns -/

inductive RE where
  | eps : RE
  | cls : (Char → Bool) → RE
  | seq : RE → RE → RE
  | alt : RE → RE → RE
  | rep : RE → Nat → Option Nat → RE
  | wb : RE

def reSize : RE → Nat
  | .eps => 1
  | .cls _ => 1
  | .seq a b => reSize a + reSize b + 1
  | .alt a b => reSize a + reSize b + 1
  | .rep a _ _ => reSize a + 2
  | .wb => 1

/-- Fuel-bounded CPS backtracking matcher: greedy quantifiers, leftmost
alternative first, and a quantifier iteration that consumes nothing ends
the loop, as in JS. -/
def reM : Nat → RE → List Char → Nat → (Nat → Option Nat) → Option Nat
  | 0, _, _, _, _ => none
  | _ + 1, RE.eps, _, i, k => k i
  | _ + 1, RE.cls p, s, i, k =>
    (match s.get? i with
     | some c => if p c then k (i + 1) else none
     | none => none)
  | f + 1, RE.seq a b, s, i, k => reM f a s i (fun j => reM f b s j k)
  | f + 1, RE.alt a b, s, i, k =>
    (match reM f a s i k with
     | some r => some r
     | none => reM f b s i k)
  | f + 1, RE.rep a lo hi, s, i, k =>
    (match lo with
     | lo' + 1 => reM f a s i (fun j => reM f (RE.rep a lo' (hi.map (fun h => h - 1))) s j k)
     | 0 =>
       (match hi with
        | some 0 => k i
        | _ =>
          (match reM f a s i
              (fun j => if j = i then none
                        else reM f (RE.rep a 0 (hi.map (fun h => h - 1))) s j k) with
           | some r => some r
           | none => k i)))
  | _ + 1, RE.wb, s, i, k => if wordBoundaryAt s i then k i else none

/-- End position of the greedy match of `re` starting exactly at `i`. -/
def matchEnd (re : RE) (s : List Char) (i : Nat) : Option Nat :=
  reM ((reSize re + 4) * (s.length + 4)) re s i (fun j => some j)

/-- Leftmost match starting at or after `i`: `(start, end)`. -/
def firstMatchFrom (re : RE) (s : List Char) (i : Nat) : Option (Nat × Nat) :=
  (List.range (s.length + 1 - i)).findSome?
    (fun d => (matchEnd re s (i + d)).map (fun e => (i + d, e)))

/-- The global `exec` loop of `runDetectors`: repeatedly take the leftmost
match from `lastIndex`, then continue from the match end (advancing one
position on an empty match). -/
def execAllAux (re : RE) (s : List Char) : Nat → Nat → List String
  | 0, _ => []
  | f + 1, li =>
    (match firstMatchFrom re s li with
     | some (st, en) =>
       String.mk ((s.drop st).take (en - st)) ::
         execAllAux re s f (if en = st then en + 1 else en)
     | none => [])

def execAll (re : RE) (v : String) : List String :=
  execAllAux re v.toList (v.toList.length + 2) 0

/-! ## The regexes of the DETECTORS table -/

def chC (c : Char) : RE := RE.cls (fun x => x == c)

def seqL (rs : List RE) : RE := rs.foldr RE.seq RE.eps

def strRE (cs : List Char) : RE := seqL (cs.map chC)

def altL : List RE → RE
  | [] => RE.cls (fun _ => false)
  | [r] => r
  | r :: rest => RE.alt r (altL rest)

def rng (a b : Char) : RE := RE.cls (fun c => decide (a ≤ c) && decide (c ≤ b))

def optRE (r : RE) : RE := RE.rep r 0 (some 1)

def rep1 (r : RE) : RE := RE.rep r 1 none

def repN (r : RE) (n : Nat) : RE := RE.rep r n (some n)

def digitRE : RE := RE.cls isDigitCh

def hexRE : RE :=
  RE.cls (fun c => isDigitCh c || (decide ('a' ≤ c) && decide (c ≤ 'f')) ||
    (decide ('A' ≤ c) && decide (c ≤ 'F')))

def upDigRE : RE :=
  RE.cls (fun c => (decide ('A' ≤ c) && decide (c ≤ 'Z')) || isDigitCh c)

/-- `[A-Za-z0-9._%+\-]+@[A-Za-z0-9.\-]+\.[A-Za-z]{2,}` -/
def emailRE : RE :=
  seqL [rep1 (RE.cls (fun c => isLetterCh c || isDigitCh c || c == '.' || c == '_' ||
          c == '%' || c == '+' || c == '-')),
    chC '@',
    rep1 (RE.cls (fun c => isLetterCh c || isDigitCh c || c == '.' || c == '-')),
    chC '.',
    RE.rep (RE.cls isLetterCh) 2 none]

/-- The credit-card network alternation wrapped in word boundaries. -/
def ccRE : RE :=
  seqL [RE.wb,
    altL [
      seqL [chC '4', repN digitRE 12, optRE (repN digitRE 3)],
      seqL [chC '5', rng '1' '5', repN digitRE 14],
      seqL [chC '3', RE.cls (fun c => c == '4' || c == '7'), repN digitRE 13],
      seqL [chC '3',
        altL [RE.seq (chC '0') (rng '0' '5'),
          RE.seq (RE.cls (fun c => c == '6' || c == '8')) digitRE],
        repN digitRE 11],
      seqL [chC '6',
        altL [strRE ['0', '1', '1'], RE.seq (chC '5') (repN digitRE 2)],
        repN digitRE 12],
      seqL [altL [strRE ['2', '1', '3', '1'], strRE ['1', '8', '0', '0'],
          RE.seq (strRE ['3', '5']) (repN digitRE 3)],
        repN digitRE 11]],
    RE.wb]

/-- `\b[A-Z]{2}\d{2}[A-Z0-9]{4,30}\b` -/
def ibanRE : RE :=
  seqL [RE.wb, repN (rng 'A' 'Z') 2, repN digitRE 2, RE.rep upDigRE 4 (some 30), RE.wb]

/-- `\b(\d{1,3})\.(\d{1,3})\.(\d{1,3})\.(\d{1,3})\b` -/
def ipv4RE : RE :=
  seqL [RE.wb, RE.rep digitRE 1 (some 3), chC '.', RE.rep digitRE 1 (some 3), chC '.',
    RE.rep digitRE 1 (some 3), chC '.', RE.rep digitRE 1 (some 3), RE.wb]

/-- `\b(?:[0-9a-fA-F]{1,4}:){7}[0-9a-fA-F]{1,4}\b` -/
def ipv6RE : RE :=
  seqL [RE.wb, repN (RE.seq (RE.rep hexRE 1 (some 4)) (chC ':')) 7,
    RE.rep hexRE 1 (some 4), RE.wb]

/-- `\b(?:[0-9A-Fa-f]{2}[:\-]){5}[0-9A-Fa-f]{2}\b` -/
def macRE : RE :=
  seqL [RE.wb,
    repN (RE.seq (repN hexRE 2) (RE.cls (fun c => c == ':' || c == '-'))) 5,
    repN hexRE 2, RE.wb]

/-- `\b[0-9a-fA-F]{8}-...-[0-9a-fA-F]{12}\b` (the UUID shape). -/
def uuidRE : RE :=
  seqL [RE.wb, repN hexRE 8, chC '-', repN hexRE 4, chC '-', repN hexRE 4, chC '-',
    repN hexRE 4, chC '-', repN hexRE 12, RE.wb]

/-- `\beyJ[A-Za-z0-9_-]{10,}\.[A-Za-z0-9_-]{10,}\.[A-Za-z0-9_-]{10,}\b` -/
def jwtRE : RE :=
  seqL [RE.wb, strRE ['e', 'y', 'J'],
    RE.rep (RE.cls (fun c => isWordCh c || c == '-')) 10 none, chC '.',
    RE.rep (RE.cls (fun c => isWordCh c || c == '-')) 10 none, chC '.',
    RE.rep (RE.cls (fun c => isWordCh c || c == '-')) 10 none, RE.wb]

/-- `\b(A3T[A-Z0-9]|AKIA|AGPA|AIDA|AROA|AIPA|ANPA|ANVA|ASIA)[A-Z0-9]{16}\b` -/
def awsRE : RE :=
  seqL [RE.wb,
    altL [RE.seq (strRE ['A', '3', 'T']) upDigRE,
      strRE ['A', 'K', 'I', 'A'], strRE ['A', 'G', 'P', 'A'],
      strRE ['A', 'I', 'D', 'A'], strRE ['A', 'R', 'O', 'A'],
      strRE ['A', 'I', 'P', 'A'], strRE ['A', 'N', 'P', 'A'],
      strRE ['A', 'N', 'V', 'A'], strRE ['A', 'S', 'I', 'A']],
    repN upDigRE 16, RE.wb]

/-- `\b\d{3}-\d{2}-\d{4}\b` -/
def ssnRE : RE :=
  seqL [RE.wb, repN digitRE 3, chC '-', repN digitRE 2, chC '-', repN digitRE 4, RE.wb]

/-- The international phone pattern (no word boundaries). -/
def phoneRE : RE :=
  seqL [chC '+', RE.rep digitRE 1 (some 3),
    optRE (RE.cls (fun c => isSpaceJS c || c == '-')), optRE (chC '('),
    RE.rep digitRE 1 (some 4), optRE (chC ')'),
    optRE (RE.cls (fun c => isSpaceJS c || c == '-')), RE.rep digitRE 3 (some 5),
    optRE (RE.cls (fun c => isSpaceJS c || c == '-')), RE.rep digitRE 3 (some 5)]

/-- `\b(\d{4})-(\d{2})-(\d{2})\b` -/
def isoDateRE : RE :=
  seqL [RE.wb, repN digitRE 4, chC '-', repN digitRE 2, chC '-', repN digitRE 2, RE.wb]

/-- `https?:\/\/[^\s"'<>]+` -/
def urlRE : RE :=
  seqL [strRE ['h', 't', 't', 'p'], optRE (chC 's'), strRE [':', '/', '/'],
    rep1 (RE.cls (fun c => !(isSpaceJS c || c == '"' || c == '\'' || c == '<' ||
      c == '>')))]

/-! ## Validators and the DETECTORS table -/

def luhnDouble (n : Nat) : Nat := if 9 < n * 2 then n * 2 - 9 else n * 2

/-- The alternating sum of `luhnCheck`, over the digit values right-to-left
with the `alternate` flag. -/
def luhnSum : List Nat → Bool → Nat
  | [], _ => 0
  | d :: rest, alt => (if alt then luhnDouble d else d) + luhnSum rest (!alt)

def luhnCheck (numStr : String) : Bool :=
  let digits := numStr.toList.filter isDigitCh
  if digits.length < 13 || 19 < digits.length then false
  else luhnSum (digits.reverse.map digitVal) false % 10 == 0

def decimalVal (ds : List Char) : Nat := ds.foldl (fun a c => a * 10 + digitVal c) 0

/-- JS `parseInt(str, 10)`: skip leading whitespace, an optional sign, then
the longest leading digit run; `none` models NaN. -/
def parseIntJS (s : String) : Option Int :=
  let cs := s.toList.dropWhile isSpaceJS
  let cs2 := if cs.head? == some '-' || cs.head? == some '+' then cs.tail else cs
  let ds := cs2.takeWhile isDigitCh
  if ds.isEmpty then none
  else some ((if cs.head? == some '-' then -1 else 1) * (decimalVal ds : Int))

/-- JS `String.prototype.split` on a single separator character. -/
def splitOnCh (sep : Char) : List Char → List Char → List String
  | [], cur => [String.mk cur.reverse]
  | c :: rest, cur =>
    if c = sep then String.mk cur.reverse :: splitOnCh sep rest []
    else splitOnCh sep rest (c :: cur)

def splitStr (sep : Char) (s : String) : List String := splitOnCh sep s.toList []

/-- The IPv4 detector's validate: every dot-separated part parses to an
integer in 0..255. -/
def ipv4Validate (m : String) : Bool :=
  (splitStr '.' m).all (fun o =>
    match parseIntJS o with
    | some n => decide (0 ≤ n) && decide (n ≤ 255)
    | none => false)

/-- The ISO-date detector's validate: year 1900..2100, month 1..12,
day 1..31. -/
def dateValidate (m : String) : Bool :=
  let parts := splitStr '-' m
  let inRange : Option Int → Int → Int → Bool := fun o lo hi =>
    match o with
    | some n => decide (lo ≤ n) && decide (n ≤ hi)
    | none => false
  inRange (parseIntJS ((parts.get? 0).getD "")) 1900 2100 &&
  inRange (parseIntJS ((parts.get? 1).getD "")) 1 12 &&
  inRange (parseIntJS ((parts.get? 2).getD "")) 1 31

/-- A detector, with the fields `runDetectors` reads. -/
structure Detector where
  name : String
  re : RE
  validate : Option (String → Bool)

def DETECTORS : List Detector :=
  [⟨"Email Address", emailRE, none⟩,
   ⟨"Credit Card Number", ccRE, some luhnCheck⟩,
   ⟨"IBAN", ibanRE, none⟩,
   ⟨"IPv4 Address", ipv4RE, some ipv4Validate⟩,
   ⟨"IPv6 Address", ipv6RE, none⟩,
   ⟨"MAC Address", macRE, none⟩,
   ⟨"UUID", uuidRE, none⟩,
   ⟨"JSON Web Token", jwtRE, none⟩,
   ⟨"AWS Access Key", awsRE, none⟩,
   ⟨"US Social Security Number", ssnRE, none⟩,
   ⟨"Phone Number (International)", phoneRE, none⟩,
   ⟨"ISO Date", isoDateRE, some dateValidate⟩,
   ⟨"URL", urlRE, none⟩]

/-! ## Claims C4, C7, C8: the validators -/

/-- The claim's right-to-left alternating doubled-digit sum: digits are
given rightmost first; every second digit is doubled, subtracting 9 from
doubled values exceeding 9. -/
def specAltSum : List Nat → Nat
  | [] => 0
  | [d] => d
  | d0 :: d1 :: rest => d0 + (if 9 < d1 * 2 then d1 * 2 - 9 else d1 * 2) + specAltSum rest

/-- The claim's acceptance condition for the Luhn validator. -/
def specLuhnAccept (s : String) : Prop :=
  let ds := (s.toList.filter isDigitCh).map digitVal
  13 ≤ ds.length ∧ ds.length ≤ 19 ∧ specAltSum ds.reverse % 10 = 0

theorem luhnSum_spec : ∀ ds : List Nat, luhnSum ds false = specAltSum ds
  | [] => rfl
  | [_] => rfl
  | d0 :: d1 :: rest => by
    have h := luhnSum_spec rest
    show d0 + (luhnDouble d1 + luhnSum rest false) =
      d0 + (if 9 < d1 * 2 then d1 * 2 - 9 else d1 * 2) + specAltSum rest
    rw [h]
    unfold luhnDouble
    by_cases hd : 9 < d1 * 2
    · rw [if_pos hd]; omega
    · rw [if_neg hd]; omega

theorem takeWhile_all (p : Char → Bool) :
    ∀ l : List Char, (∀ c ∈ l, p c = true) → l.takeWhile p = l
  | [], _ => rfl
  | c :: rest, h => by
    rw [List.takeWhile_cons_of_pos (h c (by simp))]
    rw [takeWhile_all p rest (fun x hx => h x (by simp [hx]))]

theorem digit_ne_dash {c : Char} (h : isDigitCh c = true) : c ≠ '-' := by
  intro he; rw [he] at h; exact absurd h (by decide)

theorem digit_ne_plus {c : Char} (h : isDigitCh c = true) : c ≠ '+' := by
  intro he; rw [he] at h; exact absurd h (by decide)

theorem dropWhile_cons_false {p : Char → Bool} {c : Char} {rest : List Char}
    (h : p c = false) : List.dropWhile p (c :: rest) = c :: rest := by
  rw [List.dropWhile_cons, h]
  simp

theorem parseIntJS_digits (c : Char) (rest : List Char)
    (hall : ∀ x ∈ c :: rest, isDigitCh x = true) :
    parseIntJS (String.mk (c :: rest)) = some ((decimalVal (c :: rest) : Int)) := by
  have hc := hall c (by simp)
  have hcw : isSpaceJS c = false := not_space_of_word (word_of_digit hc)
  have hb1 : (some c == some '-') = false := by
    simp only [beq_eq_false_iff_ne, ne_eq, Option.some.injEq]
    exact digit_ne_dash hc
  have hb2 : (some c == some '+') = false := by
    simp only [beq_eq_false_iff_ne, ne_eq, Option.some.injEq]
    exact digit_ne_plus hc
  simp only [parseIntJS]
  rw [show (String.mk (c :: rest)).toList = c :: rest from rfl]
  rw [dropWhile_cons_false hcw]
  rw [show (c :: rest).head? = some c from rfl, hb1, hb2]
  simp only [Bool.or_self, Bool.false_eq_true, if_false]
  rw [takeWhile_all isDigitCh (c :: rest) hall]
  simp only [List.isEmpty_cons, Bool.false_eq_true, if_false]
  rw [one_mul]

theorem splitOnCh_cons_ne {sep c : Char} {rest : List Char} {cur : List Char}
    (h : c ≠ sep) :
    splitOnCh sep (c :: rest) cur = splitOnCh sep rest (c :: cur) := by
  simp only [splitOnCh]
  rw [if_neg h]

theorem splitOnCh_cons_eq (sep : Char) (rest : List Char) (cur : List Char) :
    splitOnCh sep (sep :: rest) cur =
      String.mk cur.reverse :: splitOnCh sep rest [] := by
  simp only [splitOnCh, if_true, eq_self_iff_true]

theorem decimalVal_four (a b c d : Char) :
    decimalVal [a, b, c, d] =
      1000 * digitVal a + 100 * digitVal b + 10 * digitVal c + digitVal d := by
  simp [decimalVal, List.foldl]; ring

theorem decimalVal_two (a b : Char) :
    decimalVal [a, b] = 10 * digitVal a + digitVal b := by
  simp [decimalVal, List.foldl]; ring

/-- C4 counterexample: the claim says the all-zeros 16-digit string is
rejected by the Luhn validator, but `luhnCheck` accepts it — 16 digits are
in range and the alternating sum is 0, divisible by 10. -/
theorem c4_counterexample : luhnCheck "0000000000000000" = true := by decide

/-- C4 (amended): `luhnCheck` accepts a string iff, after stripping
non-digits, the digit count is within 13..19 and the right-to-left
alternating doubled-digit sum is divisible by 10; '4111111111111111' is
accepted and '1234567890123456' is rejected, while '0000000000000000' IS
accepted by the validator — it is the credit-card detector's regex, whose
alternation admits only known network prefixes, that never produces it as
a match. -/
theorem c4_luhn_validator :
    (∀ s : String, luhnCheck s = true ↔ specLuhnAccept s) ∧
    luhnCheck "4111111111111111" = true ∧
    luhnCheck "1234567890123456" = false ∧
    luhnCheck "0000000000000000" = true ∧
    execAll ccRE "0000000000000000" = [] := by
  refine ⟨?_, by decide, by decide, by decide, by decide⟩
  intro s
  unfold luhnCheck specLuhnAccept
  by_cases h : ((s.toList.filter isDigitCh).length < 13 ||
      19 < (s.toList.filter isDigitCh).length) = true
  · rw [if_pos h]
    simp only [Bool.or_eq_true, decide_eq_true_eq] at h
    simp only [List.length_map, Bool.false_eq_true, false_iff]
    intro ⟨h1, h2, _⟩
    omega
  · rw [if_neg h]
    simp only [Bool.or_eq_true, decide_eq_true_eq, not_or, Nat.not_lt] at h
    simp only [beq_iff_eq, List.length_map, ← List.map_reverse, luhnSum_spec]
    constructor
    · intro hs
      exact ⟨by omega, by omega, hs⟩
    · intro ⟨_, _, hs⟩
      exact hs

/-- C4 witness: the general equivalence instantiated at the accepted Visa
test number. -/
theorem c4_witness : specLuhnAccept "4111111111111111" :=
  (c4_luhn_validator.1 "4111111111111111").mp (by decide)

/-- C7: the ISO-date validator accepts a four-two-two digit string iff the
year is within 1900..2100, the month within 1..12 and the day within 1..31;
no cross-check of day against month length or leap years is performed, so
'2024-02-31' is accepted while '2024-13-01' and '2024-00-15' are rejected. -/
theorem c7_iso_date_validator :
    (∀ a b c d e f g h : Char,
      isDigitCh a = true → isDigitCh b = true → isDigitCh c = true →
      isDigitCh d = true → isDigitCh e = true → isDigitCh f = true →
      isDigitCh g = true → isDigitCh h = true →
      (dateValidate (String.mk [a, b, c, d, '-', e, f, '-', g, h]) = true ↔
        (1900 ≤ 1000 * digitVal a + 100 * digitVal b + 10 * digitVal c + digitVal d ∧
         1000 * digitVal a + 100 * digitVal b + 10 * digitVal c + digitVal d ≤ 2100 ∧
         1 ≤ 10 * digitVal e + digitVal f ∧ 10 * digitVal e + digitVal f ≤ 12 ∧
         1 ≤ 10 * digitVal g + digitVal h ∧ 10 * digitVal g + digitVal h ≤ 31))) ∧
    dateValidate "2024-03-15" = true ∧
    dateValidate "2024-13-01" = false ∧
    dateValidate "2024-00-15" = false ∧
    dateValidate "2024-02-31" = true := by
  refine ⟨?_, by decide, by decide, by decide, by decide⟩
  intro a b c d e f g h ha hb hc hd he hf hg hh
  have hsplit : splitStr '-' (String.mk [a, b, c, d, '-', e, f, '-', g, h]) =
      [String.mk [a, b, c, d], String.mk [e, f], String.mk [g, h]] := by
    unfold splitStr
    rw [show (String.mk [a, b, c, d, '-', e, f, '-', g, h]).toList =
      [a, b, c, d, '-', e, f, '-', g, h] from rfl]
    rw [splitOnCh_cons_ne (digit_ne_dash ha), splitOnCh_cons_ne (digit_ne_dash hb),
      splitOnCh_cons_ne (digit_ne_dash hc), splitOnCh_cons_ne (digit_ne_dash hd),
      splitOnCh_cons_eq, splitOnCh_cons_ne (digit_ne_dash he),
      splitOnCh_cons_ne (digit_ne_dash hf), splitOnCh_cons_eq,
      splitOnCh_cons_ne (digit_ne_dash hg), splitOnCh_cons_ne (digit_ne_dash hh)]
    rfl
  simp only [dateValidate]
  rw [hsplit]
  rw [show ([String.mk [a, b, c, d], String.mk [e, f], String.mk [g, h]].get? 0).getD "" =
    String.mk [a, b, c, d] from rfl]
  rw [show ([String.mk [a, b, c, d], String.mk [e, f], String.mk [g, h]].get? 1).getD "" =
    String.mk [e, f] from rfl]
  rw [show ([String.mk [a, b, c, d], String.mk [e, f], String.mk [g, h]].get? 2).getD "" =
    String.mk [g, h] from rfl]
  rw [parseIntJS_digits a [b, c, d]
      (by intro x hx
          simp only [List.mem_cons, List.not_mem_nil, or_false] at hx
          rcases hx with rfl | rfl | rfl | rfl <;> assumption),
    parseIntJS_digits e [f]
      (by intro x hx
          simp only [List.mem_cons, List.not_mem_nil, or_false] at hx
          rcases hx with rfl | rfl <;> assumption),
    parseIntJS_digits g [h]
      (by intro x hx
          simp only [List.mem_cons, List.not_mem_nil, or_false] at hx
          rcases hx with rfl | rfl <;> assumption)]
  rw [decimalVal_four, decimalVal_two, decimalVal_two]
  simp only [Bool.and_eq_true, decide_eq_true_eq]
  omega

/-- C7 witness: the equivalence applied at the digits of 2024-02-31 shows
the impossible calendar date is accepted. -/
theorem c7_witness :
    dateValidate (String.mk ['2', '0', '2', '4', '-', '0', '2', '-', '3', '1']) = true :=
  ((c7_iso_date_validator.1 '2' '0' '2' '4' '0' '2' '3' '1' (by decide) (by decide)
    (by decide) (by decide) (by decide) (by decide) (by decide) (by decide)).mpr
    (by decide))

/-- C8: the IPv4 validator accepts iff every dot-separated part parses as
an integer in 0..255; '192.168.1.1' is accepted, '999.999.999.999' is
rejected, and '1.2.3' never reaches the validator because the detector
regex requires four dot-separated digit groups. -/
theorem c8_ipv4_validator :
    (∀ s : String, ipv4Validate s = true ↔
      ∀ o ∈ splitStr '.' s, ∃ n : Int, parseIntJS o = some n ∧ 0 ≤ n ∧ n ≤ 255) ∧
    ipv4Validate "192.168.1.1" = true ∧
    ipv4Validate "999.999.999.999" = false ∧
    execAll ipv4RE "192.168.1.1" = ["192.168.1.1"] ∧
    execAll ipv4RE "1.2.3" = [] := by
  refine ⟨?_, by decide, by decide, by decide, by decide⟩
  intro s
  unfold ipv4Validate
  rw [List.all_eq_true]
  constructor
  · intro hall o ho
    have hv := hall o ho
    cases hp : parseIntJS o with
    | none => rw [hp] at hv; exact absurd hv (by simp)
    | some n =>
      rw [hp] at hv
      simp only [Bool.and_eq_true, decide_eq_true_eq] at hv
      exact ⟨n, rfl, hv.1, hv.2⟩
  · intro hx o ho
    obtain ⟨n, hn, h0, h255⟩ := hx o ho
    rw [hn]
    simp only [Bool.and_eq_true, decide_eq_true_eq]
    exact ⟨h0, h255⟩

/-- C8 witness: the equivalence instantiated at '192.168.1.1'. -/
theorem c8_witness :
    ∀ o ∈ splitStr '.' "192.168.1.1",
      ∃ n : Int, parseIntJS o = some n ∧ 0 ≤ n ∧ n ≤ 255 :=
  (c8_ipv4_validator.1 "192.168.1.1").mp (by decide)

/-! ## runDetectors (source lines 376-428) -/

structure MatchEntry where
  value : String
  line : Nat
  header : Option String
deriving DecidableEq

/-- One retained entry of the `detections` map: the detector is identified
by its name (the map key). -/
structure Detection where
  detName : String
  matchEntries : List MatchEntry
  score : Nat
  seenValues : List String
deriving DecidableEq

/-- JS `Set.add`: append if not yet present (insertion order kept). -/
def addSet {α : Type} [DecidableEq α] (l : List α) (v : α) : List α :=
  if v ∈ l then l else l ++ [v]

/-- The contents of a JS Set built by inserting the list's elements. -/
def listToSet {α : Type} [DecidableEq α] (l : List α) : List α := l.foldl addSet []

def lowerCh (c : Char) : Char :=
  if decide ('A' ≤ c) && decide (c ≤ 'Z') then Char.ofNat (c.toNat + 32) else c

def lowerStr (s : String) : String := String.mk (s.toList.map lowerCh)

/-- JS `String.prototype.includes`. -/
def listContainsSub (s sub : List Char) : Bool :=
  (List.range (s.length + 1)).any (fun i => (s.drop i).take sub.length == sub)

def SENSITIVE_HEADERS : List String :=
  ["email", "ssn", "phone", "card", "credit", "ip", "address", "name", "dob",
   "birth", "account", "token", "key", "secret", "password", "id"]

def hasSensitiveHeader (headers : List String) : Bool :=
  headers.any (fun h =>
    SENSITIVE_HEADERS.any (fun w => listContainsSub (lowerStr h).toList w.toList))

/-- All regex matches of one detector in one token value that pass the
optional validator. -/
def acceptedMatches (d : Detector) (v : String) : List String :=
  (execAll d.re v).filter (fun m =>
    match d.validate with
    | some f => f m
    | none => true)

def detMatches (d : Detector) (toks : List Token) : List MatchEntry :=
  (toks.map (fun t => (acceptedMatches d t.value).map
    (fun v => MatchEntry.mk v t.line t.header))).join

/-- One detector's pass of `runDetectors`: skip when no accepted match;
score is matches plus twice the distinct matched lines, plus 5 once when a
CSV header is sensitive; keep iff the score is at least 2. -/
def detEntry (td : TokenData) (d : Detector) : Option Detection :=
  let ms := detMatches d td.tokens
  if ms.length = 0 then none
  else
    let score := ms.length + (listToSet (ms.map MatchEntry.line)).length * 2 +
      (if td.isCSV && hasSensitiveHeader td.headers then 5 else 0)
    if 2 ≤ score then
      some ⟨d.name, ms, score, listToSet (ms.map MatchEntry.value)⟩
    else none

def runDetectors (td : TokenData) : List Detection := DETECTORS.filterMap (detEntry td)

/-! ## Set-as-list lemmas -/

theorem mem_addSet {α : Type} [DecidableEq α] (l : List α) (v x : α) :
    x ∈ addSet l v ↔ x ∈ l ∨ x = v := by
  unfold addSet
  by_cases h : v ∈ l
  · rw [if_pos h]
    exact ⟨Or.inl, fun hx => hx.elim id (fun he => he ▸ h)⟩
  · rw [if_neg h]
    simp

theorem nodup_addSet {α : Type} [DecidableEq α] (l : List α) (v : α)
    (h : l.Nodup) : (addSet l v).Nodup := by
  unfold addSet
  by_cases hv : v ∈ l
  · rw [if_pos hv]; exact h
  · rw [if_neg hv]
    simp [List.nodup_append, h, hv]

theorem mem_foldl_addSet {α : Type} [DecidableEq α] :
    ∀ (l acc : List α) (x : α), x ∈ l.foldl addSet acc ↔ x ∈ acc ∨ x ∈ l
  | [], acc, x => by simp
  | v :: rest, acc, x => by
    rw [List.foldl_cons, mem_foldl_addSet rest (addSet acc v) x, mem_addSet]
    simp only [List.mem_cons]
    tauto

theorem nodup_foldl_addSet {α : Type} [DecidableEq α] :
    ∀ (l acc : List α), acc.Nodup → (l.foldl addSet acc).Nodup
  | [], _, h => h
  | v :: rest, acc, h => nodup_foldl_addSet rest (addSet acc v) (nodup_addSet acc v h)

theorem listToSet_mem {α : Type} [DecidableEq α] (l : List α) (x : α) :
    x ∈ listToSet l ↔ x ∈ l := by
  unfold listToSet
  rw [mem_foldl_addSet]
  simp

theorem listToSet_nodup {α : Type} [DecidableEq α] (l : List α) :
    (listToSet l).Nodup :=
  nodup_foldl_addSet l [] List.nodup_nil

theorem listToSet_length_card {α : Type} [DecidableEq α] (l : List α) :
    (listToSet l).length = l.toFinset.card := by
  have h1 : (listToSet l).toFinset = l.toFinset := by
    ext x
    simp [List.mem_toFinset, listToSet_mem]
  rw [← h1]
  exact (List.toFinset_card_of_nodup (listToSet_nodup l)).symm

theorem hasSensitiveHeader_iff (headers : List String) :
    hasSensitiveHeader headers = true ↔
      ∃ h ∈ headers, ∃ w ∈ SENSITIVE_HEADERS,
        listContainsSub (lowerStr h).toList w.toList = true := by
  unfold hasSensitiveHeader
  simp [List.any_eq_true]

/-! ## Claim C3 -/

/-- The claim's score formula: accepted matches, plus twice the number of
distinct lines with a match, plus five exactly when the document is
tabular and some header case-insensitively contains a sensitive word. -/
def specScore (td : TokenData) (ms : List MatchEntry) : Nat :=
  ms.length + 2 * (ms.map MatchEntry.line).toFinset.card +
    (if td.isCSV = true ∧ (∃ h ∈ td.headers, ∃ w ∈ SENSITIVE_HEADERS,
        listContainsSub (lowerStr h).toList w.toList = true) then 5 else 0)

theorem codeScore_eq_specScore (td : TokenData) (ms : List MatchEntry) :
    ms.length + (listToSet (ms.map MatchEntry.line)).length * 2 +
      (if td.isCSV && hasSensitiveHeader td.headers then 5 else 0) =
      specScore td ms := by
  unfold specScore
  rw [listToSet_length_card]
  have hbonus : (if td.isCSV && hasSensitiveHeader td.headers then 5 else 0) =
      (if td.isCSV = true ∧ (∃ h ∈ td.headers, ∃ w ∈ SENSITIVE_HEADERS,
          listContainsSub (lowerStr h).toList w.toList = true) then 5 else 0) := by
    by_cases hb : (td.isCSV && hasSensitiveHeader td.headers) = true
    · rw [if_pos hb]
      rw [Bool.and_eq_true] at hb
      rw [if_pos ⟨hb.1, (hasSensitiveHeader_iff _).mp hb.2⟩]
    · rw [if_neg hb]
      rw [if_neg (fun hc => hb (by
        rw [Bool.and_eq_true]
        exact ⟨hc.1, (hasSensitiveHeader_iff _).mpr hc.2⟩))]
  rw [hbonus]
  ring_nf

/-- C3: for every tokenized document and detector with at least one
accepted match, the retained entry's score is the number of accepted
matches plus twice the distinct matched lines plus the conditional 5
sensitive-header bonus; the detector is retained iff that score is at
least 2; the two-row email CSV yields exactly one result with score
2 + 2*2 + 5 = 11. -/
theorem c3_builtin_scoring :
    (∀ td : TokenData, ∀ d ∈ DETECTORS, ∀ e, detEntry td d = some e →
      e.score = specScore td e.matchEntries ∧ e ∈ runDetectors td) ∧
    (∀ (td : TokenData) (d : Detector), detMatches d td.tokens ≠ [] →
      ((detEntry td d).isSome = true ↔ 2 ≤ specScore td (detMatches d td.tokens))) ∧
    runDetectors (tokenize "email,notes\na@b.co,xx\nc@d.io,yy") =
      [⟨"Email Address",
        [⟨"a@b.co", 2, some "email"⟩, ⟨"c@d.io", 3, some "email"⟩], 11,
        ["a@b.co", "c@d.io"]⟩] := by
  refine ⟨?_, ?_, by decide⟩
  · intro td d hd e he
    simp only [detEntry] at he
    by_cases h0 : (detMatches d td.tokens).length = 0
    · rw [if_pos h0] at he
      cases he
    · rw [if_neg h0] at he
      by_cases h2 : 2 ≤ (detMatches d td.tokens).length +
          (listToSet ((detMatches d td.tokens).map MatchEntry.line)).length * 2 +
          (if td.isCSV && hasSensitiveHeader td.headers then 5 else 0)
      · rw [if_pos h2] at he
        injection he with he
        subst he
        refine ⟨codeScore_eq_specScore td _, ?_⟩
        apply List.mem_filterMap.mpr
        refine ⟨d, hd, ?_⟩
        simp only [detEntry]
        rw [if_neg h0, if_pos h2]
      · rw [if_neg h2] at he
        cases he
  · intro td d hm
    have h0 : ¬((detMatches d td.tokens).length = 0) := by
      intro hz
      exact hm (List.length_eq_zero.mp hz)
    simp only [detEntry]
    rw [if_neg h0]
    rw [codeScore_eq_specScore td (detMatches d td.tokens)]
    by_cases h2 : 2 ≤ specScore td (detMatches d td.tokens)
    · rw [if_pos h2]
      simp [h2]
    · rw [if_neg h2]
      simp [h2]

/-! ## analyzeStructural (source lines 432-503) -/

structure StructGroup where
  name : String
  signature : String
  regex : String
  tokens : List Token
  uniqueValues : List String
  score : Nat
  headerContext : Option String
deriving DecidableEq

/-- Adding one detection's match values to the `alreadyMatched` set. -/
def amStep (acc : List String) (det : Detection) : List String :=
  det.matchEntries.foldl (fun a m => addSet a m.value) acc

def alreadyMatchedOf (dets : List Detection) : List String := dets.foldl amStep []

/-- The eligibility filter of `analyzeStructural`: not a full-line token,
not already matched by a built-in detector, contains a digit, at least 4
characters, not a plain number (digits and dots without a dot, or all
digits shorter than 6). -/
def eligibleToken (already : List String) (t : Token) : Bool :=
  !t.fullLine &&
  !(decide (t.value ∈ already)) &&
  t.value.toList.any isDigitCh &&
  decide (4 ≤ t.value.length) &&
  !((t.value.toList.all (fun c => isDigitCh c || c == '.')) &&
    !(t.value.toList.contains '.')) &&
  !((t.value.toList.all isDigitCh) && decide (t.value.length < 6))

def structuredTokensOf (td : TokenData) (already : List String) : List Token :=
  td.tokens.filter (eligibleToken already)

/-- Appending a token to its signature's group in the insertion-ordered
signature map. -/
def addToGroups : List (String × List Token) → String → Token → List (String × List Token)
  | [], sig, t => [(sig, [t])]
  | (s, ts) :: rest, sig, t =>
    if s = sig then (s, ts ++ [t]) :: rest
    else (s, ts) :: addToGroups rest sig t

def gStep (gs : List (String × List Token)) (t : Token) : List (String × List Token) :=
  match computeSignature t.value with
  | none => gs
  | some sig => addToGroups gs sig t

def groupsOf (toks : List Token) : List (String × List Token) := toks.foldl gStep []

/-- The single CSV header shared by all of a group's tokens, when exactly
one exists (a token's header counts only when truthy). -/
def groupHeaderContext (isCSV : Bool) (toks : List Token) : Option String :=
  if isCSV then
    (match listToSet ((toks.filter (fun t => t.header.getD "" != "")).map
        (fun t => t.header.getD "")) with
     | [h] => some h
     | _ => none)
  else none

def groupScore (isCSV : Bool) (toks : List Token) : Nat :=
  toks.length + (listToSet (toks.map Token.line)).length * 2 +
    (if (groupHeaderContext isCSV toks).isSome then 5 else 0)

/-- The body of the final loop of `analyzeStructural` for one signature
group: needs 3 distinct values, a nonempty regex and a score of at
least 2. -/
def processGroup (isCSV : Bool) (sig : String) (toks : List Token) :
    Option StructGroup :=
  if (listToSet (toks.map Token.value)).length < 3 then none
  else if signatureToRegex sig = "" then none
  else if 2 ≤ groupScore isCSV toks then
    some ⟨(match groupHeaderContext isCSV toks with
           | some h => "Structured " ++ h
           | none => "Structured Pattern"),
      sig, signatureToRegex sig, toks, listToSet (toks.map Token.value),
      groupScore isCSV toks, groupHeaderContext isCSV toks⟩
  else none

def analyzeStructural (td : TokenData) (builtin : List Detection) : List StructGroup :=
  (groupsOf (structuredTokensOf td (alreadyMatchedOf builtin))).filterMap
    (fun p => processGroup td.isCSV p.1 p.2)

/-! ## The negative test-case generator (source lines 705-719) -/

/-- `generateStructuralNegatives(sampleValue, signature)`: fixed fallbacks
when the sample is missing or empty, otherwise the half-length truncation
and the sample with two digits appended. -/
def generateStructuralNegatives (sampleValue : Option String) (sig : String) :
    List (String × String) :=
  match sampleValue with
  | none =>
    [("XXXXX", "Random string not matching structural pattern"),
     ("12345", "Plain number without expected structure")]
  | some v =>
    if v = "" then
      [("XXXXX", "Random string not matching structural pattern"),
       ("12345", "Plain number without expected structure")]
    else
      [(String.mk (v.toList.take ((v.length + 1) / 2)),
        "Truncated value — too short to match"),
       (v ++ "99", "Extended value — extra characters appended")]

/-- The should-not-match cases `generateStructuralPattern` emits for a
group: negatives of the first of the (at most 5) sample values. -/
def structuralShouldNotMatch (g : StructGroup) : List (String × String) :=
  generateStructuralNegatives ((g.uniqueValues.take 5).head?) g.signature

/-! ## Lemmas about the structural pipeline -/

theorem mem_foldl_addSet_map {α β : Type} [DecidableEq β] (f : α → β) :
    ∀ (l : List α) (acc : List β) (x : β),
      x ∈ l.foldl (fun a e => addSet a (f e)) acc ↔ x ∈ acc ∨ ∃ e ∈ l, f e = x
  | [], acc, x => by simp
  | v :: rest, acc, x => by
    rw [List.foldl_cons, mem_foldl_addSet_map f rest (addSet acc (f v)) x, mem_addSet]
    simp only [List.mem_cons]
    constructor
    · rintro (⟨h | h⟩ | ⟨e, he, hf⟩)
      · exact Or.inl h
      · exact Or.inr ⟨v, Or.inl rfl, h.symm⟩
      · exact Or.inr ⟨e, Or.inr he, hf⟩
    · rintro (h | ⟨e, he | he, hf⟩)
      · exact Or.inl (Or.inl h)
      · exact Or.inl (Or.inr (he ▸ hf.symm))
      · exact Or.inr ⟨e, he, hf⟩

theorem mem_alreadyMatchedOf :
    ∀ (dets : List Detection) (acc : List String) (x : String),
      x ∈ dets.foldl amStep acc ↔
        x ∈ acc ∨ ∃ e ∈ dets, ∃ m ∈ e.matchEntries, m.value = x
  | [], acc, x => by simp
  | d :: rest, acc, x => by
    rw [List.foldl_cons, mem_alreadyMatchedOf rest (amStep acc d) x]
    unfold amStep
    rw [mem_foldl_addSet_map MatchEntry.value]
    simp only [List.mem_cons]
    constructor
    · rintro (⟨h | ⟨m, hm, hv⟩⟩ | ⟨e, he, m, hm, hv⟩)
      · exact Or.inl h
      · exact Or.inr ⟨d, Or.inl rfl, m, hm, hv⟩
      · exact Or.inr ⟨e, Or.inr he, m, hm, hv⟩
    · rintro (h | ⟨e, he | he, m, hm, hv⟩)
      · exact Or.inl (Or.inl h)
      · exact Or.inl (Or.inr ⟨m, he ▸ hm, hv⟩)
      · exact Or.inr ⟨e, he, m, hm, hv⟩

theorem addToGroups_tokens_sub :
    ∀ (gs : List (String × List Token)) (sig : String) (t : Token)
      (q : String × List Token), q ∈ addToGroups gs sig t → ∀ u ∈ q.2,
        (∃ p ∈ gs, u ∈ p.2) ∨ u = t
  | [], sig, t, q => by
    intro hq u hu
    simp only [addToGroups, List.mem_singleton] at hq
    subst hq
    simp only [List.mem_singleton] at hu
    exact Or.inr hu
  | (s, ts) :: rest, sig, t, q => by
    intro hq u hu
    simp only [addToGroups] at hq
    by_cases hs : s = sig
    · rw [if_pos hs] at hq
      rcases List.mem_cons.mp hq with h | h
      · subst h
        rcases List.mem_append.mp hu with h2 | h2
        · exact Or.inl ⟨(s, ts), List.mem_cons_self _ _, h2⟩
        · simp only [List.mem_singleton] at h2
          exact Or.inr h2
      · exact Or.inl ⟨q, List.mem_cons_of_mem _ h, hu⟩
    · rw [if_neg hs] at hq
      rcases List.mem_cons.mp hq with h | h
      · subst h
        exact Or.inl ⟨(s, ts), List.mem_cons_self _ _, hu⟩
      · rcases addToGroups_tokens_sub rest sig t q h u hu with ⟨p, hp, hup⟩ | he
        · exact Or.inl ⟨p, List.mem_cons_of_mem _ hp, hup⟩
        · exact Or.inr he

theorem foldl_gStep_tokens_sub :
    ∀ (toks : List Token) (gs : List (String × List Token))
      (q : String × List Token), q ∈ toks.foldl gStep gs → ∀ u ∈ q.2,
        (∃ p ∈ gs, u ∈ p.2) ∨ u ∈ toks
  | [], gs, q => by
    intro hq u hu
    exact Or.inl ⟨q, hq, hu⟩
  | t :: rest, gs, q => by
    intro hq u hu
    rw [List.foldl_cons] at hq
    rcases foldl_gStep_tokens_sub rest (gStep gs t) q hq u hu with ⟨p, hp, hup⟩ | h
    · unfold gStep at hp
      cases hsig : computeSignature t.value with
      | none =>
        rw [hsig] at hp
        exact Or.inl ⟨p, hp, hup⟩
      | some sig =>
        rw [hsig] at hp
        rcases addToGroups_tokens_sub gs sig t p hp u hup with ⟨p2, hp2, hup2⟩ | he
        · exact Or.inl ⟨p2, hp2, hup2⟩
        · exact Or.inr (he ▸ List.mem_cons_self t rest)
    · exact Or.inr (List.mem_cons_of_mem t h)

theorem mem_groupsOf_tokens (toks : List Token) (q : String × List Token)
    (hq : q ∈ groupsOf toks) : ∀ u ∈ q.2, u ∈ toks := by
  intro u hu
  rcases foldl_gStep_tokens_sub toks [] q hq u hu with ⟨p, hp, _⟩ | h
  · cases hp
  · exact h

theorem signatureToRegex_ne_empty (sig : String) : signatureToRegex sig ≠ "" := by
  intro h
  have := congrArg String.toList h
  rw [signatureToRegex_toList] at this
  cases this

theorem addSet_length_le {α : Type} [DecidableEq α] (l : List α) (v : α) :
    (addSet l v).length ≤ l.length + 1 := by
  unfold addSet
  by_cases h : v ∈ l
  · rw [if_pos h]; omega
  · rw [if_neg h]; simp

theorem foldl_addSet_length_le {α : Type} [DecidableEq α] :
    ∀ (l acc : List α), (l.foldl addSet acc).length ≤ acc.length + l.length
  | [], acc => by simp
  | v :: rest, acc => by
    rw [List.foldl_cons]
    have h1 := foldl_addSet_length_le rest (addSet acc v)
    have h2 := addSet_length_le acc v
    simp only [List.length_cons]
    omega

theorem listToSet_length_le {α : Type} [DecidableEq α] (l : List α) :
    (listToSet l).length ≤ l.length := by
  have := foldl_addSet_length_le l ([] : List α)
  simpa [listToSet] using this

/-- Inversion of `processGroup`: what a produced group's fields are. -/
theorem processGroup_inv (b : Bool) (sig : String) (toks : List Token)
    (g : StructGroup) (h : processGroup b sig toks = some g) :
    g.tokens = toks ∧ g.uniqueValues = listToSet (toks.map Token.value) ∧
    g.score = groupScore b toks ∧ g.headerContext = groupHeaderContext b toks ∧
    g.signature = sig ∧ 3 ≤ (listToSet (toks.map Token.value)).length ∧
    2 ≤ groupScore b toks := by
  unfold processGroup at h
  by_cases h3 : (listToSet (toks.map Token.value)).length < 3
  · rw [if_pos h3] at h; cases h
  · rw [if_neg h3] at h
    rw [if_neg (signatureToRegex_ne_empty sig)] at h
    by_cases h2 : 2 ≤ groupScore b toks
    · rw [if_pos h2] at h
      injection h with h
      subst h
      exact ⟨rfl, rfl, rfl, rfl, rfl, by omega, h2⟩
    · rw [if_neg h2] at h; cases h

theorem eligible_not_already {already : List String} {t : Token}
    (h : eligibleToken already t = true) : t.value ∉ already := by
  unfold eligibleToken at h
  simp only [Bool.and_eq_true, Bool.not_eq_true', decide_eq_false_iff_not] at h
  exact h.1.1.1.1.2

theorem eligible_length {already : List String} {t : Token}
    (h : eligibleToken already t = true) : 4 ≤ t.value.length := by
  unfold eligibleToken at h
  simp only [Bool.and_eq_true, decide_eq_true_eq] at h
  exact h.1.1.2

/-! ## Claims C5, C2, C9 -/

/-- C5: a signature group with exactly 2 distinct member values never
yields a structural group; one with exactly 3 distinct values always
does, with score memberTokenCount + 2*distinctLineCount (+5 with a header
context), necessarily at least 2 — the score guard never discards a group
that passed the 3-distinct-value gate. -/
theorem c5_structural_threshold :
    (∀ (b : Bool) (sig : String) (toks : List Token),
      (toks.map Token.value).toFinset.card = 2 → processGroup b sig toks = none) ∧
    (∀ (b : Bool) (sig : String) (toks : List Token),
      (toks.map Token.value).toFinset.card = 3 →
      ∃ g, processGroup b sig toks = some g ∧
        g.score = toks.length + 2 * (toks.map Token.line).toFinset.card +
          (if g.headerContext.isSome then 5 else 0) ∧
        2 ≤ g.score) := by
  constructor
  · intro b sig toks h
    unfold processGroup
    rw [if_pos (by rw [listToSet_length_card, h]; omega)]
  · intro b sig toks h
    have hlen : (listToSet (toks.map Token.value)).length = 3 := by
      rw [listToSet_length_card, h]
    have htoks : 3 ≤ toks.length := by
      have h1 := listToSet_length_le (toks.map Token.value)
      rw [hlen, List.length_map] at h1
      exact h1
    have hscore : 2 ≤ groupScore b toks := by
      have h1 : toks.length ≤ groupScore b toks :=
        le_trans (Nat.le_add_right _ _) (Nat.le_add_right _ _)
      omega
    refine ⟨⟨(match groupHeaderContext b toks with
           | some h => "Structured " ++ h
           | none => "Structured Pattern"),
      sig, signatureToRegex sig, toks, listToSet (toks.map Token.value),
      groupScore b toks, groupHeaderContext b toks⟩, ?_, ?_, ?_⟩
    · unfold processGroup
      rw [if_neg (by rw [hlen]; omega), if_neg (signatureToRegex_ne_empty sig),
        if_pos hscore]
    · show groupScore b toks = toks.length + 2 * (toks.map Token.line).toFinset.card +
        (if (groupHeaderContext b toks).isSome then 5 else 0)
      unfold groupScore
      rw [listToSet_length_card]
      ring
    · exact hscore

/-- C5 witness: a two-value group is dropped. -/
theorem c5_witness :
    processGroup false "2A-2d"
      [⟨"AB-12", 1, none, none, false⟩, ⟨"CD-34", 2, none, none, false⟩] = none :=
  c5_structural_threshold.1 false "2A-2d" _ (by decide)

/-- C2: on any input document, a token whose value was matched by a
retained built-in detector is excluded from structural generalization, so
no value appears both in a detection's match set and in a structural
group's token set. -/
theorem c2_partition_law (content : String) :
    ∀ e ∈ runDetectors (tokenize content), ∀ m ∈ e.matchEntries,
      ∀ g ∈ analyzeStructural (tokenize content) (runDetectors (tokenize content)),
        ∀ t ∈ g.tokens, t.value ≠ m.value := by
  intro e he m hm g hg t ht heq
  unfold analyzeStructural at hg
  obtain ⟨p, hp, hpg⟩ := List.mem_filterMap.mp hg
  have hinv := processGroup_inv _ _ _ _ hpg
  rw [hinv.1] at ht
  have htin := mem_groupsOf_tokens _ p hp t ht
  unfold structuredTokensOf at htin
  have helig := (List.mem_filter.mp htin).2
  have hnot := eligible_not_already helig
  apply hnot
  rw [heq]
  exact (mem_alreadyMatchedOf (runDetectors (tokenize content)) [] m.value).mpr
    (Or.inr ⟨e, he, m, hm, rfl⟩)

/-- C2 witness: in a free-text sample holding an email address and three
structured codes, the first structural token's value differs from the
first detection's matched value. -/
theorem c2_witness :
    (((analyzeStructural (tokenize "a@b.co\nID-1111\nID-2222\nID-3333")
        (runDetectors (tokenize "a@b.co\nID-1111\nID-2222\nID-3333"))).headD
        ⟨"", "", "", [], [], 0, none⟩).tokens.headD
        ⟨"", 0, none, none, false⟩).value ≠
    (((runDetectors (tokenize "a@b.co\nID-1111\nID-2222\nID-3333")).headD
        ⟨"", [], 0, []⟩).matchEntries.headD ⟨"", 0, none⟩).value :=
  c2_partition_law "a@b.co\nID-1111\nID-2222\nID-3333"
    ((runDetectors (tokenize "a@b.co\nID-1111\nID-2222\nID-3333")).headD
      ⟨"", [], 0, []⟩) (by decide) _ (by decide)
    ((analyzeStructural (tokenize "a@b.co\nID-1111\nID-2222\nID-3333")
        (runDetectors (tokenize "a@b.co\nID-1111\nID-2222\nID-3333"))).headD
      ⟨"", "", "", [], [], 0, none⟩) (by decide) _ (by decide)

/-- C9: for a group's nonempty first sample value v the should-not-match
cases are exactly the ceil(len/2)-character truncation labeled too short
and v with "99" appended labeled as extended; without a sample value the
two fixed fallbacks are emitted; every emitted structural group does have
a nonempty first sample value. -/
theorem c9_structural_negatives :
    (∀ (v sig : String), v ≠ "" →
      generateStructuralNegatives (some v) sig =
        [(String.mk (v.toList.take ((v.length + 1) / 2)),
          "Truncated value — too short to match"),
         (v ++ "99", "Extended value — extra characters appended")]) ∧
    (∀ sig : String,
      generateStructuralNegatives none sig =
        [("XXXXX", "Random string not matching structural pattern"),
         ("12345", "Plain number without expected structure")]) ∧
    (∀ (td : TokenData) (dets : List Detection) (g : StructGroup),
      g ∈ analyzeStructural td dets →
      ∃ v, (g.uniqueValues.take 5).head? = some v ∧ v ≠ "") := by
  refine ⟨?_, fun _ => rfl, ?_⟩
  · intro v sig hv
    show (if v = "" then
        [("XXXXX", "Random string not matching structural pattern"),
         ("12345", "Plain number without expected structure")]
      else
        [(String.mk (v.toList.take ((v.length + 1) / 2)),
          "Truncated value — too short to match"),
         (v ++ "99", "Extended value — extra characters appended")]) = _
    rw [if_neg hv]
  · intro td dets g hg
    unfold analyzeStructural at hg
    obtain ⟨p, hp, hpg⟩ := List.mem_filterMap.mp hg
    have hinv := processGroup_inv _ _ _ _ hpg
    have hlen : 3 ≤ (listToSet (p.2.map Token.value)).length := hinv.2.2.2.2.2.1
    have huv : g.uniqueValues = listToSet (p.2.map Token.value) := hinv.2.1
    obtain ⟨v, rest, hvr⟩ : ∃ v rest, g.uniqueValues = v :: rest := by
      rw [huv]
      cases hc : listToSet (p.2.map Token.value) with
      | nil =>
        rw [hc] at hlen
        simp at hlen
      | cons a l => exact ⟨a, l, rfl⟩
    refine ⟨v, ?_, ?_⟩
    · rw [hvr]
      rfl
    · have hvmem : v ∈ listToSet (p.2.map Token.value) := by
        rw [← huv, hvr]
        exact List.mem_cons_self _ _
      rw [listToSet_mem] at hvmem
      obtain ⟨t, ht, hveq⟩ := List.mem_map.mp hvmem
      have htin := mem_groupsOf_tokens _ p hp t ht
      unfold structuredTokensOf at htin
      have helig := (List.mem_filter.mp htin).2
      have hlen4 := eligible_length helig
      subst hveq
      intro hemp
      rw [hemp] at hlen4
      simp at hlen4

/-- C9 witness: the negatives generated from the sample value AB-1234. -/
theorem c9_witness :
    generateStructuralNegatives (some "AB-1234") "2A-4d" =
      [("AB-1", "Truncated value — too short to match"),
       ("AB-123499", "Extended value — extra characters appended")] := by
  rw [c9_structural_negatives.1 "AB-1234" "2A-4d" (by decide)]
  decide

end GenFromSample
